import Mathlib

/-!
Solaire-Maths: fixed-size matrices, vector operators and the Djb2 hash.

A shallow embedding of `Solaire::Matrix<T, WIDTH, HEIGHT>`
(`Include/Solaire/Maths/Matrix.hpp`), of the operators on `Solaire::Vector`
(`Include/Solaire/Maths/Vector.inl`) and of `Djb2::Hash`
(`Src/Solaire/Maths/Hash/Djb2.cpp`).

Conventions of the embedding.

* The backing store `Scalar mData[Width * Height]` is a function on
  `Fin (Width * Height)`; a `Vector<Scalar, Length>` is a function on
  `Fin Length`.
* An access outside an array is undefined behaviour in C++.  Every array
  access of the source goes through `load` / `store`, which return `none`
  for an offset outside the array, and every operation that performs array
  accesses returns an `Option`.
* A C++ constructor body runs on storage whose contents are indeterminate.
  Constructors therefore take the prior contents of the storage as the
  argument `init`; an offset the constructor never writes keeps `init`'s value.
* The template parameters and loop counters are `uint32_t`.  For an access
  inside the array the offset is below `Width * Height`, the array bound, so
  no offset computation wraps; offsets are natural numbers.
* `for (uint32_t i = 0; i < n; ++i)` is `forLoop n`.
* The template parameter `Scalar` is a type with the operators `+ - * /`.  The
  integer scalar types are `IntScalar t`, with arithmetic modulo `2^w`; a
  division by zero is undefined, and so is a division whose quotient overflows
  (the minimum of `int32_t` or `int64_t` divided by `-1`).
-/

namespace Solaire

/-! ## Control flow -/

/-- The loop `for (uint32_t i = 0; i < n; ++i) s = body(i, s)`: the first `n`
iterations in increasing order of `i`; the loop is abandoned (`none`) as soon
as one iteration is undefined. -/
def forLoop {σ : Type} : Nat → (Nat → σ → Option σ) → σ → Option σ
  | 0, _, s => some s
  | n + 1, body, s => (forLoop n body s).bind (body n)

/-- The loop `for (uint32_t i = lo; i < hi; ++i) s = body(i, s)`. -/
def forRange {σ : Type} (lo hi : Nat) (body : Nat → σ → Option σ) (s : σ) : Option σ :=
  forLoop (hi - lo) (fun k => body (lo + k)) s

/-! ## Vector -/

/-- Modelled from the spec: the class `Vector<Scalar, Length>` is declared in
Vector.hpp, which is not among the sources.  Per the spec it holds `Length`
contiguously stored scalar components. -/
structure Vector (α : Type) (Length : Nat) where
  data : Fin Length → α

namespace Vector

variable {α : Type} {Length : Nat}

/-- Modelled from the spec: default construction of a `Vector` (declared in
Vector.hpp) yields all components zero-valued. -/
def ctor [Zero α] : Vector α Length := ⟨fun _ => 0⟩

/-- Modelled from the spec: element-list construction of a `Vector` (declared
in Vector.hpp) copies up to `Length` supplied values in order; unsupplied
trailing components are zero-valued and a longer list is truncated. -/
def ctorElements [Zero α] (aElements : List α) : Vector α Length :=
  ⟨fun i => aElements.getD i.val 0⟩

/-- Modelled from the spec: the indexed read `v[i]` of a `Vector` (declared in
Vector.hpp); the precondition is `i < Length`, anything else is undefined. -/
def load (v : Vector α Length) (i : Nat) : Option α :=
  if h : i < Length then some (v.data ⟨i, h⟩) else none

/-- Modelled from the spec: the indexed write `v[i] = x` of a `Vector`
(declared in Vector.hpp); the precondition is `i < Length`. -/
def store (v : Vector α Length) (i : Nat) (x : α) : Option (Vector α Length) :=
  if h : i < Length then some ⟨Function.update v.data ⟨i, h⟩ x⟩ else none

/-- The components in index order. -/
def toList (v : Vector α Length) : List α := List.ofFn v.data

end Vector

/-! ## Matrix -/

/-- The class `Matrix<T, WIDTH, HEIGHT>`: its only data member is
`Scalar mData[Width * Height]`, the elements in row major order. -/
structure Matrix (α : Type) (Width Height : Nat) where
  mData : Fin (Width * Height) → α

namespace Matrix

variable {α : Type} {Width Height : Nat}

/-- The read `mData[k]`. -/
def load (m : Matrix α Width Height) (k : Nat) : Option α :=
  if h : k < Width * Height then some (m.mData ⟨k, h⟩) else none

/-- The write `mData[k] = v`. -/
def store (m : Matrix α Width Height) (k : Nat) (v : α) : Option (Matrix α Width Height) :=
  if h : k < Width * Height then some ⟨Function.update m.mData ⟨k, h⟩ v⟩ else none

/-- The storage in offset order (row major). -/
def toList (m : Matrix α Width Height) : List α := List.ofFn m.mData

/-- The constructor `Matrix()` (Matrix.hpp:75-82), run on storage holding `init`. -/
def ctor [Zero α] [One α] (init : Matrix α Width Height) : Option (Matrix α Width Height) :=
  forLoop Width (fun i m =>
    forLoop Height (fun j m => m.store (i * Width + j) (if i = j then 1 else 0)) m) init

/-- The constructor `Matrix(const Scalar aScalar)` (Matrix.hpp:97-104), run on
storage holding `init`. -/
def ctorScalar [Zero α] (aScalar : α) (init : Matrix α Width Height) :
    Option (Matrix α Width Height) :=
  forLoop Width (fun i m =>
    forLoop Height (fun j m => m.store (i * Width + j) (if i = j then aScalar else 0)) m) init

/-- The constructor `Matrix(const std::initializer_list<Scalar> aElements)`
(Matrix.hpp:110-127), run on storage holding `init`.  The iterator `j` is a position in
the list; `*j` past the end is undefined.  The state of the first loop is the
pair of the storage and `j`.  An initializer list has fewer than `2^32`
elements, so the `uint32_t` variable `size` holds the length of the list. -/
def ctorElements [Zero α] (aElements : List α) (init : Matrix α Width Height) :
    Option (Matrix α Width Height) :=
  let Size := Width * Height
  let size := aElements.length
  let min := if Size ≤ size then Size else size
  (forLoop min (fun i (st : Matrix α Width Height × Nat) =>
      aElements[st.2]?.bind (fun x =>
        (st.1.store i x).map (fun m => (m, st.2 + 1)))) (init, 0)).bind
    (fun st => forRange min Size (fun i m => m.store i 0) st.1)

/-- The member `operator[](aIndex)` (Matrix.hpp:171-184) returns the pointer
`mData + (aIndex * Width)`; a pointer into the storage is its offset from
`mData`. -/
def operatorIndex (_m : Matrix α Width Height) (aIndex : Nat) : Nat :=
  0 + aIndex * Width

/-- The member `ptr()` (Matrix.hpp:210-220) returns `mData`, offset 0 of the storage. -/
def ptr (_m : Matrix α Width Height) : Nat := 0

/-- The read `p[c]` through a pointer `p` into the storage of `m`. -/
def deref (m : Matrix α Width Height) (p c : Nat) : Option α := m.load (p + c)

/-- The member `getRow(aIndex)` (Matrix.hpp:228-240): the `Width` scalars
starting at `mData + aIndex * Width` read as a `Row`; defined when that block
lies inside the storage. -/
def getRow (m : Matrix α Width Height) (aIndex : Nat) : Option (Vector α Width) :=
  if h : aIndex * Width + Width ≤ Width * Height then
    some ⟨fun c => m.mData ⟨aIndex * Width + c.val,
      Nat.lt_of_lt_of_le (Nat.add_lt_add_left c.isLt _) h⟩⟩
  else none

/-- The member `getColumn(aIndex)` (Matrix.hpp:248-254): a default-constructed
`Column` filled by `tmp[i] = mData[i * Width + aIndex]`. -/
def getColumn [Zero α] (m : Matrix α Width Height) (aIndex : Nat) : Option (Vector α Height) :=
  forLoop Height (fun i (tmp : Vector α Height) =>
    (m.load (i * Width + aIndex)).bind (fun x => tmp.store i x)) Vector.ctor

/-- The member `setRow(aIndex, aRow)` (Matrix.hpp:263-265): `memcpy` of `Width`
scalars from `aRow` to `mData + Width * aIndex`; defined when the destination
block lies inside the storage. -/
def setRow (m : Matrix α Width Height) (aIndex : Nat) (aRow : Vector α Width) :
    Option (Matrix α Width Height) :=
  if Width * aIndex + Width ≤ Width * Height then
    some ⟨fun k =>
      if h : Width * aIndex ≤ k.val ∧ k.val < Width * aIndex + Width then
        aRow.data ⟨k.val - Width * aIndex, by omega⟩
      else m.mData k⟩
  else none

/-- The member `setColumn(aIndex, aColumn)` (Matrix.hpp:274-278):
`mData[i * Width + aIndex] = aColumn[i]` for each `i < Height`. -/
def setColumn (m : Matrix α Width Height) (aIndex : Nat) (aColumn : Vector α Height) :
    Option (Matrix α Width Height) :=
  forLoop Height (fun i m =>
    (aColumn.load i).bind (fun x => m.store (i * Width + aIndex) x)) m

/-- The member `Inverse()` (Matrix.hpp:280-283); `init` is the storage of the returned
temporary. -/
def Inverse [Zero α] [One α] (_m : Matrix α Width Height) (init : Matrix α Height Width) :
    Option (Matrix α Height Width) :=
  ctor init

/-- The member `transpose()` (Matrix.hpp:288-294); `init` is the storage of `tmp` before
its default construction. -/
def transpose [Zero α] [One α] (m : Matrix α Width Height) (init : Matrix α Height Width) :
    Option (Matrix α Height Width) :=
  (ctor init).bind (fun tmp =>
    forLoop Width (fun i (tmp : Matrix α Height Width) =>
      (m.getRow i).bind (fun r => tmp.setColumn i r)) tmp)

end Matrix

/-! ## Object representation of integer scalars and `memcmp` -/

/-- The integer scalar types for which the library names instantiations
(Matrix.hpp:314-345): `uint8_t`, `int8_t`, ..., `uint64_t`, `int64_t`. -/
inductive IntType where
  | u8 | i8 | u16 | i16 | u32 | i32 | u64 | i64
  deriving DecidableEq

namespace IntType

/-- The value of `sizeof(Scalar)`. -/
def sizeof : IntType → Nat
  | u8 => 1 | i8 => 1
  | u16 => 2 | i16 => 2
  | u32 => 4 | i32 => 4
  | u64 => 8 | i64 => 8

/-- Whether the type is signed. -/
def signed : IntType → Bool
  | u8 => false | u16 => false | u32 => false | u64 => false
  | i8 => true | i16 => true | i32 => true | i64 => true

/-- The values of the type: `[0, 2^w)` when unsigned and `[-2^(w-1), 2^(w-1))`
when signed, for `w = 8 * sizeof`. -/
def inRange (t : IntType) (v : Int) : Prop :=
  if t.signed then -(2 ^ (8 * t.sizeof - 1) : Int) ≤ v ∧ v < 2 ^ (8 * t.sizeof - 1)
  else 0 ≤ v ∧ v < 2 ^ (8 * t.sizeof)

instance (t : IntType) (v : Int) : Decidable (t.inRange v) := by
  unfold inRange; exact inferInstance

end IntType

/-- The `n` bytes of the bit pattern `x`, least significant byte first. -/
def leBytes : Nat → Nat → List Nat
  | 0, _ => []
  | n + 1, x => x % 256 :: leBytes n (x / 256)

/-- The object representation of the value `v` of type `t`: the bytes of its
two's complement bit pattern `v mod 2^w`.  (The byte order is that of a
little-endian target; comparing for equality does not depend on it.) -/
def IntType.objectBytes (t : IntType) (v : Int) : List Nat :=
  leBytes t.sizeof (v % 2 ^ (8 * t.sizeof)).toNat

/-- The C library function `memcmp(a, b, n)` on byte buffers: zero when the
first `n` bytes agree, otherwise negative or positive according to the first
differing pair of bytes; reading past the end of a buffer is undefined. -/
def memcmp : List Nat → List Nat → Nat → Option Int
  | _, _, 0 => some 0
  | a :: as, b :: bs, n + 1 =>
    if a < b then some (-1) else if b < a then some 1 else memcmp as bs n
  | _, _, _ + 1 => none

namespace Matrix

variable {Width Height : Nat}

/-- The bytes of `mData` for scalars of the integer type `t`. -/
def objectBytes (t : IntType) (m : Matrix Int Width Height) : List Nat :=
  (List.ofFn m.mData).flatMap t.objectBytes

/-- The member `operator==` (Matrix.hpp:191-193):
`memcmp(mData, aOther.mData, sizeof(Scalar) * Width * Height) == 0`. -/
def operatorEq (t : IntType) (m aOther : Matrix Int Width Height) : Option Bool :=
  (memcmp (m.objectBytes t) (aOther.objectBytes t) (t.sizeof * Width * Height)).map
    (fun r => r == 0)

/-- The member `operator!=` (Matrix.hpp:200-202):
`memcmp(mData, aOther.mData, sizeof(Scalar) * Width * Height) != 0`. -/
def operatorNe (t : IntType) (m aOther : Matrix Int Width Height) : Option Bool :=
  (memcmp (m.objectBytes t) (aOther.objectBytes t) (t.sizeof * Width * Height)).map
    (fun r => r != 0)

end Matrix

/-! ## Fixed-width integer scalars -/

/-- Whether the built-in quotient `x / y` of a scalar type overflows, that is,
is not representable in the type the division is computed in.  Such a division
is undefined, like the division by zero. -/
class QuotientOverflow (α : Type) where
  overflows : α → α → Bool

/-- The type in which the arithmetic on scalars of the integer type `t` is
computed: the types narrower than `int` are promoted to `int` (32 bits), the
others are computed in the type itself. -/
def IntType.promoted : IntType → IntType
  | IntType.u8 => IntType.i32 | IntType.i8 => IntType.i32
  | IntType.u16 => IntType.i32 | IntType.i16 => IntType.i32
  | IntType.u32 => IntType.u32 | IntType.i32 => IntType.i32
  | IntType.u64 => IntType.u64 | IntType.i64 => IntType.i64

/-- The value of the integer type `t` that is congruent to `v` modulo `2^w`,
`w = 8 * sizeof`: what a result `v` becomes when it is stored in a scalar of
type `t`.  Unsigned arithmetic is modulo `2^w` by the language rules, and the
types narrower than `int` are computed in `int` and reduced when the result is
stored; for the signed types the reduction is the two's complement wrap-around
of fixed-width arithmetic. -/
def IntType.wrap (t : IntType) (v : Int) : Int :=
  if t.signed then
    (v + 2 ^ (8 * t.sizeof - 1)) % 2 ^ (8 * t.sizeof) - 2 ^ (8 * t.sizeof - 1)
  else v % 2 ^ (8 * t.sizeof)

/-- A scalar of the integer type `t`: an integer in the range of the type. -/
structure IntScalar (t : IntType) where
  val : Int
  inRange : t.inRange val

/-- Two scalars are equal when their values are. -/
instance (t : IntType) : DecidableEq (IntScalar t) :=
  fun x y => decidable_of_iff (x.val = y.val)
    ⟨fun h => by cases x; cases y; cases h; rfl, fun h => h ▸ rfl⟩

namespace IntScalar

variable {t : IntType}

/-- The scalar of type `t` that results from storing the integer `v`. -/
def ofInt (t : IntType) (v : Int) : IntScalar t :=
  ⟨t.wrap v, by
    cases t <;>
      simp only [IntType.inRange, IntType.wrap, IntType.signed, IntType.sizeof] <;>
      norm_num <;> omega⟩

instance : Zero (IntScalar t) := ⟨ofInt t 0⟩

instance : One (IntScalar t) := ⟨ofInt t 1⟩

/-- The sum `x + y` in the type `t`, modulo `2^w`. -/
instance : Add (IntScalar t) := ⟨fun x y => ofInt t (x.val + y.val)⟩

/-- The difference `x - y` in the type `t`, modulo `2^w`. -/
instance : Sub (IntScalar t) := ⟨fun x y => ofInt t (x.val - y.val)⟩

/-- The product `x * y` in the type `t`, modulo `2^w`. -/
instance : Mul (IntScalar t) := ⟨fun x y => ofInt t (x.val * y.val)⟩

/-- The quotient `x / y` in the type `t`: C++ integer division truncates toward
zero.  (Division by zero and the overflowing quotient are handled by
`scalarDiv`.) -/
instance : Div (IntScalar t) := ⟨fun x y => ofInt t (x.val.tdiv y.val)⟩

/-- The quotient `x / y` of the type `t` overflows when the truncated quotient is
not representable in the type the division is computed in; this is the minimum
of `int32_t` or of `int64_t` divided by `-1`, where the division traps. -/
instance : QuotientOverflow (IntScalar t) :=
  ⟨fun x y => decide (¬ t.promoted.inRange (x.val.tdiv y.val))⟩

/-- The vector `Vector<T, Length>({l...})` of scalars of type `t` given by a
list of integer literals. -/
def vector (t : IntType) {Length : Nat} (l : List Int) : Vector (IntScalar t) Length :=
  Vector.ctorElements (l.map (ofInt t))

end IntScalar

/-! ## Vector operators (Vector.inl) -/

section VectorOperators

variable {α : Type} {Length : Nat}

/-- The built-in quotient `x / y` of the scalar type as the operators use it:
undefined when the divisor is zero (integer division by zero) and when the
quotient overflows (the minimum of `int32_t` or `int64_t` divided by `-1`). -/
def scalarDiv [Div α] [Zero α] [DecidableEq α] [QuotientOverflow α] (x y : α) : Option α :=
  if y = 0 then none
  else if QuotientOverflow.overflows x y = true then none
  else some (x / y)

/-! ### Vector / Vector -/

/-- The operator `operator+=(Vector&, const Vector)` (Vector.inl:37-43):
`aFirst[i] += aSecond[i]` for each `i`.  The value is the final content of
`aFirst`, which the returned reference denotes; `aSecond` is a by-value copy. -/
def operatorAddAssignVV [Add α] (aFirst aSecond : Vector α Length) : Option (Vector α Length) :=
  forLoop Length (fun i (aFirst : Vector α Length) =>
    (aFirst.load i).bind fun x => (aSecond.load i).bind fun y =>
      aFirst.store i (x + y)) aFirst

/-- The operator `operator-=(Vector&, const Vector)` (Vector.inl:45-51). -/
def operatorSubAssignVV [Sub α] (aFirst aSecond : Vector α Length) : Option (Vector α Length) :=
  forLoop Length (fun i (aFirst : Vector α Length) =>
    (aFirst.load i).bind fun x => (aSecond.load i).bind fun y =>
      aFirst.store i (x - y)) aFirst

/-- The operator `operator*=(Vector&, const Vector)` (Vector.inl:53-59). -/
def operatorMulAssignVV [Mul α] (aFirst aSecond : Vector α Length) : Option (Vector α Length) :=
  forLoop Length (fun i (aFirst : Vector α Length) =>
    (aFirst.load i).bind fun x => (aSecond.load i).bind fun y =>
      aFirst.store i (x * y)) aFirst

/-- The operator `operator/=(Vector&, const Vector)` (Vector.inl:61-67). -/
def operatorDivAssignVV [Div α] [Zero α] [DecidableEq α] [QuotientOverflow α]
    (aFirst aSecond : Vector α Length) :
    Option (Vector α Length) :=
  forLoop Length (fun i (aFirst : Vector α Length) =>
    (aFirst.load i).bind fun x => (aSecond.load i).bind fun y =>
      (scalarDiv x y).bind fun z => aFirst.store i z) aFirst

/-- The operator `operator+(const Vector, const Vector)` (Vector.inl:69-76): a
default-constructed `tmp` filled by `tmp[i] = aFirst[i] + aSecond[i]`; both
operands are by-value copies. -/
def operatorAddVV [Add α] [Zero α] (aFirst aSecond : Vector α Length) :
    Option (Vector α Length) :=
  forLoop Length (fun i (tmp : Vector α Length) =>
    (aFirst.load i).bind fun x => (aSecond.load i).bind fun y =>
      tmp.store i (x + y)) Vector.ctor

/-- The operator `operator-(const Vector, const Vector)` (Vector.inl:78-85). -/
def operatorSubVV [Sub α] [Zero α] (aFirst aSecond : Vector α Length) :
    Option (Vector α Length) :=
  forLoop Length (fun i (tmp : Vector α Length) =>
    (aFirst.load i).bind fun x => (aSecond.load i).bind fun y =>
      tmp.store i (x - y)) Vector.ctor

/-- The operator `operator*(const Vector, const Vector)` (Vector.inl:87-94). -/
def operatorMulVV [Mul α] [Zero α] (aFirst aSecond : Vector α Length) :
    Option (Vector α Length) :=
  forLoop Length (fun i (tmp : Vector α Length) =>
    (aFirst.load i).bind fun x => (aSecond.load i).bind fun y =>
      tmp.store i (x * y)) Vector.ctor

/-- The operator `operator/(const Vector, const Vector)` (Vector.inl:96-99):
`Vector(aFirst) /= aSecond`, the compound form applied to a copy of `aFirst`. -/
def operatorDivVV [Div α] [Zero α] [DecidableEq α] [QuotientOverflow α]
    (aFirst aSecond : Vector α Length) :
    Option (Vector α Length) :=
  operatorDivAssignVV aFirst aSecond

/-! ### Vector / Scalar -/

/-- The operator `operator+=(Vector&, const Scalar)` (Vector.inl:103-109):
`aFirst[i] += aSecond` for each `i`. -/
def operatorAddAssignVS [Add α] (aFirst : Vector α Length) (aSecond : α) :
    Option (Vector α Length) :=
  forLoop Length (fun i (aFirst : Vector α Length) =>
    (aFirst.load i).bind fun x => aFirst.store i (x + aSecond)) aFirst

/-- The operator `operator-=(Vector&, const Scalar)` (Vector.inl:111-117). -/
def operatorSubAssignVS [Sub α] (aFirst : Vector α Length) (aSecond : α) :
    Option (Vector α Length) :=
  forLoop Length (fun i (aFirst : Vector α Length) =>
    (aFirst.load i).bind fun x => aFirst.store i (x - aSecond)) aFirst

/-- The operator `operator*=(Vector&, const Scalar)` (Vector.inl:119-125). -/
def operatorMulAssignVS [Mul α] (aFirst : Vector α Length) (aSecond : α) :
    Option (Vector α Length) :=
  forLoop Length (fun i (aFirst : Vector α Length) =>
    (aFirst.load i).bind fun x => aFirst.store i (x * aSecond)) aFirst

/-- The operator `operator/=(Vector&, const Scalar)` (Vector.inl:127-133). -/
def operatorDivAssignVS [Div α] [Zero α] [DecidableEq α] [QuotientOverflow α]
    (aFirst : Vector α Length)
    (aSecond : α) : Option (Vector α Length) :=
  forLoop Length (fun i (aFirst : Vector α Length) =>
    (aFirst.load i).bind fun x =>
      (scalarDiv x aSecond).bind fun z => aFirst.store i z) aFirst

/-- The operator `operator+(const Vector, const Scalar)` (Vector.inl:135-138):
`Vector(aFirst) += aSecond`, the compound form applied to a copy of `aFirst`. -/
def operatorAddVS [Add α] (aFirst : Vector α Length) (aSecond : α) : Option (Vector α Length) :=
  operatorAddAssignVS aFirst aSecond

/-- The operator `operator-(const Vector, const Scalar)` (Vector.inl:140-143). -/
def operatorSubVS [Sub α] (aFirst : Vector α Length) (aSecond : α) : Option (Vector α Length) :=
  operatorSubAssignVS aFirst aSecond

/-- The operator `operator*(const Vector, const Scalar)` (Vector.inl:145-148). -/
def operatorMulVS [Mul α] (aFirst : Vector α Length) (aSecond : α) : Option (Vector α Length) :=
  operatorMulAssignVS aFirst aSecond

/-- The operator `operator/(const Vector, const Scalar)` (Vector.inl:150-153). -/
def operatorDivVS [Div α] [Zero α] [DecidableEq α] [QuotientOverflow α]
    (aFirst : Vector α Length) (aSecond : α) :
    Option (Vector α Length) :=
  operatorDivAssignVS aFirst aSecond

/-! ### Scalar / Vector -/

/-- The operator `operator+(const Scalar, const Vector)` (Vector.inl:157-164): a
default-constructed `tmp` filled by `tmp[i] = aFirst + aSecond[i]`. -/
def operatorAddSV [Add α] [Zero α] (aFirst : α) (aSecond : Vector α Length) :
    Option (Vector α Length) :=
  forLoop Length (fun i (tmp : Vector α Length) =>
    (aSecond.load i).bind fun y => tmp.store i (aFirst + y)) Vector.ctor

/-- The operator `operator-(const Scalar, const Vector)` (Vector.inl:166-173). -/
def operatorSubSV [Sub α] [Zero α] (aFirst : α) (aSecond : Vector α Length) :
    Option (Vector α Length) :=
  forLoop Length (fun i (tmp : Vector α Length) =>
    (aSecond.load i).bind fun y => tmp.store i (aFirst - y)) Vector.ctor

/-- The operator `operator*(const Scalar, const Vector)` (Vector.inl:175-182). -/
def operatorMulSV [Mul α] [Zero α] (aFirst : α) (aSecond : Vector α Length) :
    Option (Vector α Length) :=
  forLoop Length (fun i (tmp : Vector α Length) =>
    (aSecond.load i).bind fun y => tmp.store i (aFirst * y)) Vector.ctor

/-- The operator `operator/(const Scalar, const Vector)` (Vector.inl:184-191). -/
def operatorDivSV [Div α] [Zero α] [DecidableEq α] [QuotientOverflow α] (aFirst : α)
    (aSecond : Vector α Length) :
    Option (Vector α Length) :=
  forLoop Length (fun i (tmp : Vector α Length) =>
    (aSecond.load i).bind fun y =>
      (scalarDiv aFirst y).bind fun z => tmp.store i z) Vector.ctor

/-! ### Calls and the operands of the caller -/

/-- A call `a OP= b` of a compound operator `f`, declared
`Vector& operator OP=(Vector& aFirst, const T aSecond)`, by a caller that holds
`a` and `b`: `aFirst` is a reference to `a`, so the loop of `f` works on `a`
itself, `aSecond` is a copy of `b`, and the returned reference is `aFirst`.  The
value is the triple of `a` after the call, `b` after the call and the vector the
returned reference denotes. -/
def callCompound {β : Type} (f : Vector α Length → β → Option (Vector α Length))
    (a : Vector α Length) (b : β) : Option (Vector α Length × β × Vector α Length) :=
  (f a b).map (fun aFirst => (aFirst, b, aFirst))

/-- A call `a OP b` of a binary operator `f`, declared
`Vector operator OP(const S aFirst, const T aSecond)`, by a caller that holds
`a` and `b`: both parameters are copies, and the result is a new vector.  The
value is the triple of `a` after the call, `b` after the call and the returned
vector. -/
def callBinary {β γ : Type} (f : β → γ → Option (Vector α Length)) (a : β) (b : γ) :
    Option (β × γ × Vector α Length) :=
  (f a b).map (fun r => (a, b, r))

end VectorOperators

/-- Modelled from the spec: `operator==` of `Vector` (declared in Vector.hpp)
compares all components and is true only if every component matches exactly. -/
def Vector.operatorEq {α : Type} {Length : Nat} [DecidableEq α] (v aOther : Vector α Length) :
    Bool :=
  decide (∀ i, v.data i = aOther.data i)

/-! ## Djb2 hash (Djb2.cpp) -/

/-- The member `Djb2::Hash(aValue, aBytes)` (Djb2.cpp:25-32) on the buffer
`data` of `aBytes = data.length` bytes.  `HashType` is declared in Djb2.hpp,
which is not among the sources; it is an unsigned integer type and enters as its
width `w`, every operation on it being modulo `2^w`.  The loop reads
`data[0], data[1], ...` in order, which is the recursion over the list. -/
def Djb2.HashFrom (w : Nat) (hash : Nat) : List (Fin 256) → Nat
  | [] => hash
  | d :: data => Djb2.HashFrom w ((((hash <<< 5) % 2 ^ w + hash) % 2 ^ w + d.val) % 2 ^ w) data

/-- The member `Djb2::Hash`: the loop started from `HashType hash = 5381`. -/
def Djb2.Hash (w : Nat) (data : List (Fin 256)) : Nat :=
  Djb2.HashFrom w (5381 % 2 ^ w) data

/-! ## Access traces of the operations without an index argument -/

/-- The offsets `i * Width + j` at which the loops of `Matrix()` and of
`Matrix(aScalar)` (Matrix.hpp:77-79 and 99-101) store, in the order of the
stores: `i` runs below `Width`, `j` below `Height`. -/
def Matrix.ctorOffsets (Width Height : Nat) : List Nat :=
  (List.range Width).flatMap (fun i => (List.range Height).map (fun j => i * Width + j))

/-- The indices `i` that the loop of `transpose()` on a `Matrix<T, Width, Height>`
(Matrix.hpp:290-292) passes to `getRow(i)` on the source and to
`setColumn(i, ...)` on the result: `i` runs below `Width`. -/
def Matrix.transposeIndices (Width : Nat) : List Nat := List.range Width

/-! ## Loop and storage lemmas -/

section Lemmas

variable {α : Type} {Width Height Length : Nat}

theorem forLoop_succ {σ : Type} (n : Nat) (body : Nat → σ → Option σ) (s : σ) :
    forLoop (n + 1) body s = (forLoop n body s).bind (body n) := rfl

/-- Invariant rule for `forLoop`: an invariant that holds initially and is
carried by every iteration (which must be defined) holds of the final state,
and the loop is defined. -/
theorem forLoop_invariant {σ : Type} (P : Nat → σ → Prop) (n : Nat)
    (body : Nat → σ → Option σ) (s : σ) (h0 : P 0 s)
    (hstep : ∀ i, i < n → ∀ t, P i t → ∃ u, body i t = some u ∧ P (i + 1) u) :
    ∃ t, forLoop n body s = some t ∧ P n t := by
  induction n with
  | zero => exact ⟨s, rfl, h0⟩
  | succ n ih =>
    obtain ⟨t, ht, hP⟩ := ih (fun i hi => hstep i (Nat.lt_succ_of_lt hi))
    obtain ⟨u, hu, hQ⟩ := hstep n (Nat.lt_succ_self n) t hP
    exact ⟨u, by rw [forLoop_succ, ht]; exact hu, hQ⟩

/-- A loop is undefined when one iteration inside its range is undefined for
every state. -/
theorem forLoop_none_of_step {σ : Type} (n : Nat) (body : Nat → σ → Option σ) (s : σ)
    (i : Nat) (hi : i < n) (hfail : ∀ t, body i t = none) : forLoop n body s = none := by
  induction n with
  | zero => exact absurd hi (Nat.not_lt_zero _)
  | succ n ih =>
    rw [forLoop_succ]
    rcases Nat.lt_succ_iff_lt_or_eq.mp hi with h | h
    · rw [ih h]; rfl
    · subst h
      cases forLoop i body s with
      | none => rfl
      | some t => exact hfail t

/-- Row major offsets of in-range coordinates are inside the storage. -/
theorem offset_lt {r c : Nat} (hr : r < Height) (hc : c < Width) :
    r * Width + c < Width * Height := by
  calc r * Width + c < r * Width + Width := Nat.add_lt_add_left hc _
    _ = (r + 1) * Width := by ring
    _ ≤ Height * Width := Nat.mul_le_mul_right _ hr
    _ = Width * Height := Nat.mul_comm _ _

theorem Vector.ext_components {v w : Vector α Length} (h : ∀ i, v.data i = w.data i) : v = w := by
  cases v; cases w; congr; exact funext h

theorem Matrix.ext_data {m n : Matrix α Width Height} (h : ∀ k, m.mData k = n.mData k) :
    m = n := by
  cases m; cases n; congr; exact funext h

theorem Vector.component_of_lt (v : Vector α Length) {i : Nat} (h : i < Length) :
    v.load i = some (v.data ⟨i, h⟩) := by
  simp [Vector.load, h]

theorem Vector.assign_of_lt (v : Vector α Length) {i : Nat} (h : i < Length) (x : α) :
    v.store i x = some ⟨Function.update v.data ⟨i, h⟩ x⟩ := by
  simp [Vector.store, h]

theorem Matrix.load_of_lt (m : Matrix α Width Height) {k : Nat} (h : k < Width * Height) :
    m.load k = some (m.mData ⟨k, h⟩) := by
  simp [Matrix.load, h]

theorem Matrix.load_of_not_lt (m : Matrix α Width Height) {k : Nat} (h : ¬ k < Width * Height) :
    m.load k = none := by
  simp [Matrix.load, h]

theorem Matrix.store_of_lt (m : Matrix α Width Height) {k : Nat} (h : k < Width * Height)
    (v : α) : m.store k v = some ⟨Function.update m.mData ⟨k, h⟩ v⟩ := by
  simp [Matrix.store, h]

theorem Matrix.store_of_not_lt (m : Matrix α Width Height) {k : Nat}
    (h : ¬ k < Width * Height) (v : α) : m.store k v = none := by
  simp [Matrix.store, h]

/-- Reading after a defined write: the written offset holds the new value, every
other offset is unchanged. -/
theorem Matrix.load_store {m n : Matrix α Width Height} {k : Nat} {v : α}
    (h : m.store k v = some n) (j : Nat) :
    n.load j = if j = k then some v else m.load j := by
  unfold Matrix.store at h
  split at h
  · rename_i hk
    cases h
    by_cases hj : j < Width * Height
    · rw [Matrix.load_of_lt _ hj, Matrix.load_of_lt _ hj]
      by_cases hjk : j = k
      · subst hjk; simp
      · have : (⟨j, hj⟩ : Fin (Width * Height)) ≠ ⟨k, hk⟩ := by
          intro e; exact hjk (Fin.mk.inj e)
        simp [Function.update_noteq this, hjk]
    · rw [Matrix.load_of_not_lt _ hj, Matrix.load_of_not_lt _ hj]
      have : j ≠ k := by intro e; subst e; exact hj hk
      simp [this]
  · cases h

theorem Vector.component_after_assign {v w : Vector α Length} {i : Nat} {x : α}
    (h : v.store i x = some w) (j : Nat) :
    w.load j = if j = i then some x else v.load j := by
  unfold Vector.store at h
  split at h
  · rename_i hk
    cases h
    by_cases hj : j < Length
    · rw [Vector.component_of_lt _ hj, Vector.component_of_lt _ hj]
      by_cases hjk : j = i
      · subst hjk; simp
      · have : (⟨j, hj⟩ : Fin Length) ≠ ⟨i, hk⟩ := by
          intro e; exact hjk (Fin.mk.inj e)
        simp [Function.update_noteq this, hjk]
    · have hn : ∀ u : Vector α Length, u.load j = none := by
        intro u; simp [Vector.load, hj]
      rw [hn, hn]
      have : j ≠ i := by intro e; subst e; exact hj hk
      simp [this]
  · cases h

/-- Two matrices with the same reads at every offset are equal. -/
theorem Matrix.eq_of_load_eq {m n : Matrix α Width Height} (h : ∀ k, m.load k = n.load k) :
    m = n := by
  apply Matrix.ext_data
  intro k
  have := h k.val
  rw [Matrix.load_of_lt _ k.isLt, Matrix.load_of_lt _ k.isLt] at this
  exact Option.some.inj this

theorem Vector.eq_of_components_eq {v w : Vector α Length} (h : ∀ i, v.load i = w.load i) :
    v = w := by
  apply Vector.ext_components
  intro i
  have := h i.val
  rw [Vector.component_of_lt _ i.isLt, Vector.component_of_lt _ i.isLt] at this
  exact Option.some.inj this

/-- A column whose `Height` gathered reads are all defined is returned by
`getColumn`. -/
theorem Matrix.getColumn_of_loads [Zero α] (m : Matrix α Width Height) (a : Nat)
    (f : Fin Height → α)
    (hf : ∀ i (hi : i < Height), m.load (i * Width + a) = some (f ⟨i, hi⟩)) :
    m.getColumn a = some ⟨f⟩ := by
  obtain ⟨t, ht, hP⟩ := forLoop_invariant
    (fun i (tmp : Vector α Height) =>
      ∀ j (hj : j < Height), j < i → tmp.load j = some (f ⟨j, hj⟩))
    Height
    (fun i (tmp : Vector α Height) =>
      (m.load (i * Width + a)).bind (fun x => tmp.store i x))
    Vector.ctor
    (fun j _ hj => absurd hj (Nat.not_lt_zero _))
    (by
      intro i hi t hP
      refine ⟨⟨Function.update t.data ⟨i, hi⟩ (f ⟨i, hi⟩)⟩, ?_, ?_⟩
      · show (m.load (i * Width + a)).bind (fun x => t.store i x) = _
        rw [hf i hi]
        exact Vector.assign_of_lt t hi _
      · intro j hj hji
        rw [Vector.component_after_assign (Vector.assign_of_lt t hi (f ⟨i, hi⟩)) j]
        by_cases e : j = i
        · subst e; simp
        · simp only [e, if_false]
          exact hP j hj (by omega))
  unfold Matrix.getColumn
  rw [ht]
  congr 1
  apply Vector.ext_components
  intro i
  have := hP i.val i.isLt i.isLt
  rw [Vector.component_of_lt _ i.isLt] at this
  exact Option.some.inj this

/-- What `setColumn` does with a valid column index: it is defined, column
`a` holds the given vector, and no other offset changes. -/
theorem Matrix.setColumn_spec (m : Matrix α Width Height) (a : Nat) (col : Vector α Height)
    (ha : a < Width) :
    ∃ n, m.setColumn a col = some n ∧
      (∀ i (hi : i < Height), n.load (i * Width + a) = some (col.data ⟨i, hi⟩)) ∧
      (∀ k, (∀ i, i < Height → k ≠ i * Width + a) → n.load k = m.load k) := by
  have hW : 0 < Width := Nat.lt_of_le_of_lt (Nat.zero_le _) ha
  have hstep : ∀ i, i < Height → ∀ t : Matrix α Width Height,
      ((∀ j (hj : j < Height), j < i → t.load (j * Width + a) = some (col.data ⟨j, hj⟩)) ∧
        (∀ k, (∀ j, j < i → k ≠ j * Width + a) → t.load k = m.load k)) →
      ∃ u, (col.load i).bind (fun x => t.store (i * Width + a) x) = some u ∧
        ((∀ j (hj : j < Height), j < i + 1 →
            u.load (j * Width + a) = some (col.data ⟨j, hj⟩)) ∧
          (∀ k, (∀ j, j < i + 1 → k ≠ j * Width + a) → u.load k = m.load k)) := by
    intro i hi t hP
    have hs := Matrix.store_of_lt t (offset_lt hi ha) (col.data ⟨i, hi⟩)
    refine ⟨⟨Function.update t.mData ⟨i * Width + a, offset_lt hi ha⟩ (col.data ⟨i, hi⟩)⟩,
      ?_, ?_, ?_⟩
    · rw [Vector.component_of_lt col hi]
      exact hs
    · intro j hj hji
      rw [Matrix.load_store hs]
      by_cases e : j = i
      · subst e; simp
      · have hne : j * Width + a ≠ i * Width + a := by
          intro h
          exact e (Nat.eq_of_mul_eq_mul_right hW (Nat.add_right_cancel h))
        simp only [hne, if_false]
        exact hP.1 j hj (by omega)
    · intro k hk
      rw [Matrix.load_store hs]
      simp only [hk i (Nat.lt_succ_self i), if_false]
      exact hP.2 k (fun j hj => hk j (Nat.lt_succ_of_lt hj))
  obtain ⟨n, hn, h1, h2⟩ := forLoop_invariant
    (fun i (t : Matrix α Width Height) =>
      (∀ j (hj : j < Height), j < i → t.load (j * Width + a) = some (col.data ⟨j, hj⟩)) ∧
      (∀ k, (∀ j, j < i → k ≠ j * Width + a) → t.load k = m.load k))
    Height
    (fun i (t : Matrix α Width Height) =>
      (col.load i).bind (fun x => t.store (i * Width + a) x))
    m ⟨fun j _ hj => absurd hj (Nat.not_lt_zero _), fun _ _ => rfl⟩ hstep
  exact ⟨n, hn, fun i hi => h1 i hi hi, h2⟩

/-- A row with a valid index is read from the offsets `aIndex * Width + c`. -/
theorem Matrix.getRow_of_lt (m : Matrix α Width Height) {i : Nat} (hi : i < Height) :
    m.getRow i = some ⟨fun c => m.mData ⟨i * Width + c.val, offset_lt hi c.isLt⟩⟩ := by
  have h : i * Width + Width ≤ Width * Height := by
    calc i * Width + Width = (i + 1) * Width := by ring
      _ ≤ Height * Width := Nat.mul_le_mul_right _ hi
      _ = Width * Height := Nat.mul_comm _ _
  simp [Matrix.getRow, h]

/-- What `setRow` does with a valid row index: it is defined, row `i` holds the
given vector, and no offset outside that row changes. -/
theorem Matrix.setRow_spec (m : Matrix α Width Height) (i : Nat) (row : Vector α Width)
    (hi : i < Height) :
    ∃ n, m.setRow i row = some n ∧
      (∀ c (hc : c < Width), n.load (i * Width + c) = some (row.data ⟨c, hc⟩)) ∧
      (∀ k, (k < i * Width ∨ i * Width + Width ≤ k) → n.load k = m.load k) := by
  have h : Width * i + Width ≤ Width * Height := by
    calc Width * i + Width = Width * (i + 1) := by ring
      _ ≤ Width * Height := Nat.mul_le_mul_left _ hi
  have hc : Width * i = i * Width := Nat.mul_comm _ _
  refine ⟨⟨fun k =>
      if h : Width * i ≤ k.val ∧ k.val < Width * i + Width then
        row.data ⟨k.val - Width * i, by omega⟩
      else m.mData k⟩, ?_, ?_, ?_⟩
  · simp [Matrix.setRow, h]
  · intro c hcw
    have hlt : i * Width + c < Width * Height := offset_lt hi hcw
    rw [Matrix.load_of_lt _ hlt]
    have hin : Width * i ≤ i * Width + c ∧ i * Width + c < Width * i + Width := by omega
    simp only [hin, and_self, dite_true]
    congr 2
    apply Fin.ext
    show i * Width + c - Width * i = c
    omega
  · intro k hk
    by_cases hlt : k < Width * Height
    · rw [Matrix.load_of_lt _ hlt, Matrix.load_of_lt _ hlt]
      have hout : ¬ (Width * i ≤ k ∧ k < Width * i + Width) := by omega
      simp only [hout, dite_false]
    · rw [Matrix.load_of_not_lt _ hlt, Matrix.load_of_not_lt _ hlt]

/-! ### Constructors and transpose: square and non-square shapes -/

/-- Row major coordinates are determined by the offset. -/
theorem offset_inj {n r c r2 c2 : Nat} (hc : c < n) (hc2 : c2 < n)
    (h : r * n + c = r2 * n + c2) : r = r2 ∧ c = c2 := by
  have h1 : (r * n + c) % n = c := by
    rw [Nat.add_comm, Nat.add_mul_mod_self_right, Nat.mod_eq_of_lt hc]
  have h2 : (r2 * n + c2) % n = c2 := by
    rw [Nat.add_comm, Nat.add_mul_mod_self_right, Nat.mod_eq_of_lt hc2]
  have hcc : c = c2 := by rw [← h1, ← h2, h]
  subst hcc
  have hn : 0 < n := Nat.lt_of_le_of_lt (Nat.zero_le _) hc
  exact ⟨Nat.eq_of_mul_eq_mul_right hn (Nat.add_right_cancel h), rfl⟩

/-- The default constructor runs the loops of the scalar constructor with the
scalar one. -/
theorem Matrix.ctor_eq_ctorScalar_one [Zero α] [One α] (init : Matrix α Width Height) :
    Matrix.ctor init = Matrix.ctorScalar 1 init := rfl

/-- On a square shape the scalar constructor is defined and writes the scalar on
the diagonal and zero elsewhere, whatever the storage held. -/
theorem Matrix.ctorScalar_square [Zero α] {n : Nat} (s : α) (init : Matrix α n n) :
    ∃ m, Matrix.ctorScalar s init = some m ∧
      ∀ i j, i < n → j < n → m.load (i * n + j) = some (if i = j then s else 0) := by
  have hinner : ∀ i, i < n → ∀ t : Matrix α n n,
      (∀ r c, r < i → c < n → t.load (r * n + c) = some (if r = c then s else 0)) →
      ∃ u, forLoop n (fun j (m : Matrix α n n) =>
            m.store (i * n + j) (if i = j then s else 0)) t = some u ∧
        (∀ r c, r < i + 1 → c < n → u.load (r * n + c) = some (if r = c then s else 0)) := by
    intro i hi t hP
    obtain ⟨u, hu, hprev, hrow⟩ := forLoop_invariant
      (fun j (u : Matrix α n n) =>
        (∀ r c, r < i → c < n → u.load (r * n + c) = some (if r = c then s else 0)) ∧
        (∀ c, c < j → u.load (i * n + c) = some (if i = c then s else 0)))
      n
      (fun j (m : Matrix α n n) => m.store (i * n + j) (if i = j then s else 0))
      t
      ⟨hP, fun c hc => absurd hc (Nat.not_lt_zero _)⟩
      (by
        intro j hj u hQ
        have hs := Matrix.store_of_lt u (offset_lt hi hj) (if i = j then s else 0)
        refine ⟨_, hs, ?_, ?_⟩
        · intro r c hr hc
          rw [Matrix.load_store hs]
          have hne : r * n + c ≠ i * n + j := by
            intro e
            have := (offset_inj hc hj e).1
            omega
          simp only [hne, if_false]
          exact hQ.1 r c hr hc
        · intro c hc
          rw [Matrix.load_store hs]
          by_cases e : c = j
          · subst e; simp
          · have hne : i * n + c ≠ i * n + j := by omega
            simp only [hne, if_false]
            exact hQ.2 c (by omega))
    refine ⟨u, hu, ?_⟩
    intro r c hr hc
    by_cases e : r = i
    · subst e; exact hrow c hc
    · exact hprev r c (by omega) hc
  obtain ⟨m, hm, hP⟩ := forLoop_invariant
    (fun i (m : Matrix α n n) =>
      ∀ r c, r < i → c < n → m.load (r * n + c) = some (if r = c then s else 0))
    n
    (fun i (m : Matrix α n n) =>
      forLoop n (fun j (m : Matrix α n n) =>
        m.store (i * n + j) (if i = j then s else 0)) m)
    init
    (fun r c hr _ => absurd hr (Nat.not_lt_zero _))
    hinner
  exact ⟨m, hm, hP⟩

/-- With more columns than rows the scalar constructor (and with it the default
constructor) writes outside the storage: iteration `i = Height`, `j = 0` stores
at offset `Height * Width`. -/
theorem Matrix.ctorScalar_wide_undefined [Zero α] (s : α) (init : Matrix α Width Height)
    (hH : 0 < Height) (hWH : Height < Width) : Matrix.ctorScalar s init = none := by
  apply forLoop_none_of_step Width _ init Height hWH
  intro t
  apply forLoop_none_of_step Height _ t 0 hH
  intro u
  apply Matrix.store_of_not_lt
  rw [Nat.add_zero, Nat.mul_comm]
  exact Nat.lt_irrefl _

/-- On a square shape `transpose()` is defined and swaps rows and columns,
whatever the storage of its temporary held. -/
theorem Matrix.transpose_square [Zero α] [One α] {n : Nat} (m : Matrix α n n)
    (init : Matrix α n n) :
    ∃ t, m.transpose init = some t ∧
      ∀ i j, i < n → j < n → t.load (i * n + j) = m.load (j * n + i) := by
  obtain ⟨tmp, htmp, _⟩ := Matrix.ctorScalar_square (1 : α) init
  obtain ⟨t, ht, hP⟩ := forLoop_invariant
    (fun i (t : Matrix α n n) =>
      ∀ r c, r < n → c < i → t.load (r * n + c) = m.load (c * n + r))
    n
    (fun i (tmp : Matrix α n n) => (m.getRow i).bind (fun r => tmp.setColumn i r))
    tmp
    (fun r c _ hc => absurd hc (Nat.not_lt_zero _))
    (by
      intro i hi t hP
      obtain ⟨u, hu, hcol, hframe⟩ := Matrix.setColumn_spec t i
        ⟨fun c => m.mData ⟨i * n + c.val, offset_lt hi c.isLt⟩⟩ hi
      refine ⟨u, ?_, ?_⟩
      · show (m.getRow i).bind (fun r => t.setColumn i r) = some u
        rw [Matrix.getRow_of_lt m hi]
        exact hu
      · intro r c hr hc
        by_cases e : c = i
        · subst e
          rw [hcol r hr, Matrix.load_of_lt m (offset_lt hi hr)]
        · rw [hframe (r * n + c) (fun r2 _ h => e (offset_inj (by omega) hi h).2)]
          exact hP r c hr (by omega))
  refine ⟨t, ?_, fun i j hi hj => hP i j hi hj⟩
  unfold Matrix.transpose
  rw [Matrix.ctor_eq_ctorScalar_one, htmp]
  exact ht

/-- On every non-square shape (with at least one row and one column)
`transpose()` is undefined: with more columns than rows its loop reads row
`Height`, outside the storage; with more rows than columns the default
constructor of its temporary writes outside the temporary. -/
theorem Matrix.transpose_nonsquare_undefined [Zero α] [One α] (m : Matrix α Width Height)
    (init : Matrix α Height Width) (hW : 0 < Width) (hH : 0 < Height) (hne : Width ≠ Height) :
    m.transpose init = none := by
  unfold Matrix.transpose
  rcases Nat.lt_or_gt_of_ne hne with h | h
  · rw [Matrix.ctor_eq_ctorScalar_one, Matrix.ctorScalar_wide_undefined 1 init hW h]
    rfl
  · cases Matrix.ctor init with
    | none => rfl
    | some tmp =>
      show forLoop Width _ tmp = none
      apply forLoop_none_of_step Width _ tmp Height h
      intro t
      have : m.getRow Height = none := by
        unfold Matrix.getRow
        rw [dif_neg]
        rw [Nat.mul_comm]
        omega
      show (m.getRow Height).bind _ = none
      rw [this]
      rfl

/-! ### Bytes and `memcmp` -/

theorem leBytes_length (n x : Nat) : (leBytes n x).length = n := by
  induction n generalizing x with
  | zero => rfl
  | succ n ih => simp [leBytes, ih]

theorem leBytes_inj (n : Nat) {x y : Nat} (hx : x < 256 ^ n) (hy : y < 256 ^ n)
    (h : leBytes n x = leBytes n y) : x = y := by
  induction n generalizing x y with
  | zero => simp at hx hy; omega
  | succ n ih =>
    simp only [leBytes, List.cons.injEq] at h
    have hx' : x / 256 < 256 ^ n := by
      rw [Nat.div_lt_iff_lt_mul (by decide)]; rw [pow_succ] at hx; exact hx
    have hy' : y / 256 < 256 ^ n := by
      rw [Nat.div_lt_iff_lt_mul (by decide)]; rw [pow_succ] at hy; exact hy
    have := ih hx' hy' h.2
    omega

theorem IntType.sizeof_pos (t : IntType) : 0 < t.sizeof := by
  cases t <;> decide

theorem IntType.objectBytes_length (t : IntType) (v : Int) :
    (t.objectBytes v).length = t.sizeof :=
  leBytes_length _ _

/-- Two values of an integer type with the same object representation are equal. -/
theorem IntType.objectBytes_inj (t : IntType) {v w : Int} (hv : t.inRange v)
    (hw : t.inRange w) (h : t.objectBytes v = t.objectBytes w) : v = w := by
  have hM : (0 : Int) < 2 ^ (8 * t.sizeof) := by positivity
  have hpow : (256 : Nat) ^ t.sizeof = 2 ^ (8 * t.sizeof) := by
    rw [pow_mul]; norm_num
  have hlt : ∀ z : Int, (z % 2 ^ (8 * t.sizeof)).toNat < 256 ^ t.sizeof := by
    intro z
    rw [Int.toNat_lt (Int.emod_nonneg _ (ne_of_gt hM)), hpow]
    push_cast
    exact Int.emod_lt_of_pos _ hM
  have hnat := leBytes_inj t.sizeof (hlt v) (hlt w) h
  have hmod : v % 2 ^ (8 * t.sizeof) = w % 2 ^ (8 * t.sizeof) := by
    have h1 := Int.toNat_of_nonneg (Int.emod_nonneg v (ne_of_gt hM))
    have h2 := Int.toNat_of_nonneg (Int.emod_nonneg w (ne_of_gt hM))
    rw [← h1, ← h2, hnat]
  have hdvd : (2 ^ (8 * t.sizeof) : Int) ∣ v - w :=
    Int.dvd_of_emod_eq_zero (Int.emod_eq_emod_iff_emod_sub_eq_zero.mp hmod)
  have hhalf : (2 : Int) ^ (8 * t.sizeof) = 2 * 2 ^ (8 * t.sizeof - 1) := by
    have : 8 * t.sizeof = (8 * t.sizeof - 1) + 1 := by
      have := t.sizeof_pos; omega
    conv_lhs => rw [this, pow_succ]
    ring
  have habs : |v - w| < 2 ^ (8 * t.sizeof) := by
    rw [abs_lt]
    unfold IntType.inRange at hv hw
    split at hv
    · rename_i hs
      rw [if_pos hs] at hw
      constructor <;> linarith [hv.1, hv.2, hw.1, hw.2]
    · rename_i hs
      rw [if_neg hs] at hw
      constructor <;> linarith [hv.1, hv.2, hw.1, hw.2]
  have := Int.eq_zero_of_abs_lt_dvd hdvd habs
  linarith

/-- On two buffers of the same length, compared in full, `memcmp` is defined
and is zero exactly when the buffers are equal. -/
theorem memcmp_eq_zero_iff (l₁ l₂ : List Nat) (h : l₁.length = l₂.length) :
    ∃ r, memcmp l₁ l₂ l₁.length = some r ∧ (r = 0 ↔ l₁ = l₂) := by
  induction l₁ generalizing l₂ with
  | nil =>
    cases l₂ with
    | nil => exact ⟨0, rfl, by simp⟩
    | cons b bs => simp at h
  | cons a as ih =>
    cases l₂ with
    | nil => simp at h
    | cons b bs =>
      simp only [List.length_cons, Nat.add_right_cancel_iff] at h
      obtain ⟨r, hr, hiff⟩ := ih bs h
      simp only [List.length_cons, memcmp]
      by_cases h1 : a < b
      · refine ⟨-1, by simp [h1], ?_⟩
        constructor
        · intro h; norm_num at h
        · intro h; cases h; omega
      · by_cases h2 : b < a
        · refine ⟨1, by simp [h1, h2], ?_⟩
          constructor
          · intro h; norm_num at h
          · intro h; cases h; omega
        · have hab : a = b := by omega
          subst hab
          refine ⟨r, by simp [hr], ?_⟩
          rw [hiff]
          simp

theorem flatMap_objectBytes_length (t : IntType) (xs : List Int) :
    (xs.flatMap t.objectBytes).length = t.sizeof * xs.length := by
  induction xs with
  | nil => simp
  | cons x xs ih =>
    rw [List.flatMap_cons, List.length_append, ih, t.objectBytes_length, List.length_cons]
    ring

theorem flatMap_objectBytes_inj (t : IntType) (xs ys : List Int)
    (hlen : xs.length = ys.length) (hx : ∀ x ∈ xs, t.inRange x) (hy : ∀ y ∈ ys, t.inRange y)
    (h : xs.flatMap t.objectBytes = ys.flatMap t.objectBytes) : xs = ys := by
  induction xs generalizing ys with
  | nil =>
    cases ys with
    | nil => rfl
    | cons y ys => simp at hlen
  | cons x xs ih =>
    cases ys with
    | nil => simp at hlen
    | cons y ys =>
      simp only [List.flatMap_cons] at h
      obtain ⟨h1, h2⟩ := List.append_inj h
        (by rw [t.objectBytes_length, t.objectBytes_length])
      have hxy := t.objectBytes_inj (hx x (List.mem_cons_self _ _))
        (hy y (List.mem_cons_self _ _)) h1
      have := ih ys (by simpa using hlen)
        (fun a ha => hx a (List.mem_cons_of_mem _ ha))
        (fun a ha => hy a (List.mem_cons_of_mem _ ha)) h2
      rw [hxy, this]

theorem Matrix.storageBytes_length (t : IntType) {Width Height : Nat}
    (m : Matrix Int Width Height) :
    (m.objectBytes t).length = t.sizeof * Width * Height := by
  unfold Matrix.objectBytes
  rw [flatMap_objectBytes_length, List.length_ofFn, Nat.mul_assoc]

/-! ### Vector operator loops -/

/-- A loop over a vector whose iteration `i` stores `f i` at index `i`, as long as
the indices from `i` on still hold their initial content, ends with the vector
`f`. -/
theorem vector_fill_loop (body : Nat → Vector α Length → Option (Vector α Length))
    (start : Vector α Length) (f : Fin Length → α)
    (hbody : ∀ i (hi : i < Length) (t : Vector α Length),
      (∀ j, i ≤ j → t.load j = start.load j) → body i t = t.store i (f ⟨i, hi⟩)) :
    forLoop Length body start = some ⟨f⟩ := by
  obtain ⟨t, ht, hP, _⟩ := forLoop_invariant
    (fun i (t : Vector α Length) =>
      (∀ j (hj : j < Length), j < i → t.load j = some (f ⟨j, hj⟩)) ∧
      (∀ j, i ≤ j → t.load j = start.load j))
    Length body start
    ⟨fun j _ hj => absurd hj (Nat.not_lt_zero _), fun _ _ => rfl⟩
    (by
      intro i hi t hP
      have hs := Vector.assign_of_lt t hi (f ⟨i, hi⟩)
      refine ⟨⟨Function.update t.data ⟨i, hi⟩ (f ⟨i, hi⟩)⟩, ?_, ?_, ?_⟩
      · rw [hbody i hi t hP.2]; exact hs
      · intro j hj hji
        rw [Vector.component_after_assign hs]
        by_cases e : j = i
        · subst e; simp
        · simp only [e, if_false]
          exact hP.1 j hj (by omega)
      · intro j hij
        rw [Vector.component_after_assign hs]
        have e : j ≠ i := by omega
        simp only [e, if_false]
        exact hP.2 j (by omega))
  rw [ht]
  congr 1
  apply Vector.ext_components
  intro i
  have := hP i.val i.isLt i.isLt
  rw [Vector.component_of_lt _ i.isLt] at this
  exact Option.some.inj this

theorem scalarDiv_of_defined [Div α] [Zero α] [DecidableEq α] [QuotientOverflow α] (x : α)
    {y : α} (h : y ≠ 0) (ho : QuotientOverflow.overflows x y = false) :
    scalarDiv x y = some (x / y) := by
  simp [scalarDiv, h, ho]

theorem operatorAddAssignVV_eq [Add α] (a b : Vector α Length) :
    operatorAddAssignVV a b = some ⟨fun i => a.data i + b.data i⟩ := by
  apply vector_fill_loop
  intro i hi t ht
  simp only [ht i (Nat.le_refl i), Vector.component_of_lt a hi, Vector.component_of_lt b hi,
    Option.some_bind]

theorem operatorSubAssignVV_eq [Sub α] (a b : Vector α Length) :
    operatorSubAssignVV a b = some ⟨fun i => a.data i - b.data i⟩ := by
  apply vector_fill_loop
  intro i hi t ht
  simp only [ht i (Nat.le_refl i), Vector.component_of_lt a hi, Vector.component_of_lt b hi,
    Option.some_bind]

theorem operatorMulAssignVV_eq [Mul α] (a b : Vector α Length) :
    operatorMulAssignVV a b = some ⟨fun i => a.data i * b.data i⟩ := by
  apply vector_fill_loop
  intro i hi t ht
  simp only [ht i (Nat.le_refl i), Vector.component_of_lt a hi, Vector.component_of_lt b hi,
    Option.some_bind]

theorem operatorDivAssignVV_eq [Div α] [Zero α] [DecidableEq α] [QuotientOverflow α]
    (a b : Vector α Length)
    (hb : ∀ i, b.data i ≠ 0)
    (ho : ∀ i, QuotientOverflow.overflows (a.data i) (b.data i) = false) :
    operatorDivAssignVV a b = some ⟨fun i => a.data i / b.data i⟩ := by
  apply vector_fill_loop
  intro i hi t ht
  simp only [ht i (Nat.le_refl i), Vector.component_of_lt a hi, Vector.component_of_lt b hi,
    Option.some_bind, scalarDiv_of_defined _ (hb ⟨i, hi⟩) (ho ⟨i, hi⟩)]

theorem operatorAddVV_eq [Add α] [Zero α] (a b : Vector α Length) :
    operatorAddVV a b = some ⟨fun i => a.data i + b.data i⟩ := by
  apply vector_fill_loop
  intro i hi t _
  simp only [Vector.component_of_lt a hi, Vector.component_of_lt b hi, Option.some_bind]

theorem operatorSubVV_eq [Sub α] [Zero α] (a b : Vector α Length) :
    operatorSubVV a b = some ⟨fun i => a.data i - b.data i⟩ := by
  apply vector_fill_loop
  intro i hi t _
  simp only [Vector.component_of_lt a hi, Vector.component_of_lt b hi, Option.some_bind]

theorem operatorMulVV_eq [Mul α] [Zero α] (a b : Vector α Length) :
    operatorMulVV a b = some ⟨fun i => a.data i * b.data i⟩ := by
  apply vector_fill_loop
  intro i hi t _
  simp only [Vector.component_of_lt a hi, Vector.component_of_lt b hi, Option.some_bind]

theorem operatorAddAssignVS_eq [Add α] (a : Vector α Length) (s : α) :
    operatorAddAssignVS a s = some ⟨fun i => a.data i + s⟩ := by
  apply vector_fill_loop
  intro i hi t ht
  simp only [ht i (Nat.le_refl i), Vector.component_of_lt a hi, Option.some_bind]

theorem operatorSubAssignVS_eq [Sub α] (a : Vector α Length) (s : α) :
    operatorSubAssignVS a s = some ⟨fun i => a.data i - s⟩ := by
  apply vector_fill_loop
  intro i hi t ht
  simp only [ht i (Nat.le_refl i), Vector.component_of_lt a hi, Option.some_bind]

theorem operatorMulAssignVS_eq [Mul α] (a : Vector α Length) (s : α) :
    operatorMulAssignVS a s = some ⟨fun i => a.data i * s⟩ := by
  apply vector_fill_loop
  intro i hi t ht
  simp only [ht i (Nat.le_refl i), Vector.component_of_lt a hi, Option.some_bind]

theorem operatorDivAssignVS_eq [Div α] [Zero α] [DecidableEq α] [QuotientOverflow α]
    (a : Vector α Length)
    {s : α} (hs : s ≠ 0) (ho : ∀ i, QuotientOverflow.overflows (a.data i) s = false) :
    operatorDivAssignVS a s = some ⟨fun i => a.data i / s⟩ := by
  apply vector_fill_loop
  intro i hi t ht
  simp only [ht i (Nat.le_refl i), Vector.component_of_lt a hi, Option.some_bind,
    scalarDiv_of_defined _ hs (ho ⟨i, hi⟩)]

theorem operatorAddSV_eq [Add α] [Zero α] (s : α) (v : Vector α Length) :
    operatorAddSV s v = some ⟨fun i => s + v.data i⟩ := by
  apply vector_fill_loop
  intro i hi t _
  simp only [Vector.component_of_lt v hi, Option.some_bind]

theorem operatorSubSV_eq [Sub α] [Zero α] (s : α) (v : Vector α Length) :
    operatorSubSV s v = some ⟨fun i => s - v.data i⟩ := by
  apply vector_fill_loop
  intro i hi t _
  simp only [Vector.component_of_lt v hi, Option.some_bind]

theorem operatorMulSV_eq [Mul α] [Zero α] (s : α) (v : Vector α Length) :
    operatorMulSV s v = some ⟨fun i => s * v.data i⟩ := by
  apply vector_fill_loop
  intro i hi t _
  simp only [Vector.component_of_lt v hi, Option.some_bind]

theorem operatorDivSV_eq [Div α] [Zero α] [DecidableEq α] [QuotientOverflow α] (s : α)
    (v : Vector α Length)
    (hv : ∀ i, v.data i ≠ 0) (ho : ∀ i, QuotientOverflow.overflows s (v.data i) = false) :
    operatorDivSV s v = some ⟨fun i => s / v.data i⟩ := by
  apply vector_fill_loop
  intro i hi t _
  simp only [Vector.component_of_lt v hi, Option.some_bind,
    scalarDiv_of_defined _ (hv ⟨i, hi⟩) (ho ⟨i, hi⟩)]

/-! ### Fixed-width integer scalars -/

theorem IntScalar.eq_of_val_eq {t : IntType} {x y : IntScalar t} (h : x.val = y.val) :
    x = y := by
  cases x; cases y; cases h; rfl

theorem IntScalar.add_val {t : IntType} (x y : IntScalar t) :
    (x + y).val = t.wrap (x.val + y.val) := rfl

theorem IntScalar.sub_val {t : IntType} (x y : IntScalar t) :
    (x - y).val = t.wrap (x.val - y.val) := rfl

theorem IntScalar.mul_val {t : IntType} (x y : IntScalar t) :
    (x * y).val = t.wrap (x.val * y.val) := rfl

theorem IntScalar.div_val {t : IntType} (x y : IntScalar t) :
    (x / y).val = t.wrap (x.val.tdiv y.val) := rfl

theorem IntScalar.zero_val {t : IntType} : (0 : IntScalar t).val = 0 := by
  show t.wrap 0 = 0
  cases t <;> simp [IntType.wrap, IntType.signed, IntType.sizeof]

/-- Storing a value that is in the range of the type does not change it. -/
theorem IntType.wrap_of_inRange (t : IntType) {v : Int} (h : t.inRange v) : t.wrap v = v := by
  cases t <;>
    simp only [IntType.inRange, IntType.wrap, IntType.signed, IntType.sizeof] at h ⊢ <;>
    norm_num at h ⊢ <;> omega

/-- In arithmetic modulo `2^w`, subtracting what was added gives the scalar back. -/
theorem IntScalar.add_then_sub {t : IntType} (x y : IntScalar t) : (x + y) - y = x := by
  apply IntScalar.eq_of_val_eq
  rw [IntScalar.sub_val, IntScalar.add_val]
  have hx := x.inRange
  generalize x.val = a at hx ⊢
  generalize y.val = b
  cases t <;>
    simp only [IntType.inRange, IntType.wrap, IntType.signed, IntType.sizeof] at hx ⊢ <;>
    norm_num at hx ⊢ <;> omega

/-- When the product is representable, dividing it by the non-zero factor gives
the scalar back. -/
theorem IntScalar.mul_then_div {t : IntType} (x s : IntScalar t) (hs : s ≠ 0)
    (h : t.inRange (x.val * s.val)) : (x * s) / s = x := by
  apply IntScalar.eq_of_val_eq
  have hs' : s.val ≠ 0 := by
    intro e
    apply hs
    apply IntScalar.eq_of_val_eq
    rw [e, IntScalar.zero_val]
  rw [IntScalar.div_val, IntScalar.mul_val, t.wrap_of_inRange h,
    Int.mul_tdiv_cancel _ hs', t.wrap_of_inRange x.inRange]

theorem tdiv_natAbs_le (x y : Int) : (x.tdiv y).natAbs ≤ x.natAbs := by
  rw [Int.natAbs_tdiv]
  exact Nat.div_le_self _ _

theorem tdiv_natAbs_half (x y : Int) (hy : 2 ≤ y.natAbs) :
    2 * (x.tdiv y).natAbs ≤ x.natAbs := by
  rw [Int.natAbs_tdiv]
  show 2 * (x.natAbs / y.natAbs) ≤ x.natAbs
  calc 2 * (x.natAbs / y.natAbs) ≤ y.natAbs * (x.natAbs / y.natAbs) :=
        Nat.mul_le_mul_right _ hy
    _ ≤ x.natAbs := Nat.mul_div_le _ _

/-- A value of the type `t` is a value of the type its arithmetic is computed in. -/
theorem IntType.inRange_promoted (t : IntType) {v : Int} (h : t.inRange v) :
    t.promoted.inRange v := by
  cases t <;>
    simp only [IntType.inRange, IntType.promoted, IntType.signed, IntType.sizeof] at h ⊢ <;>
    norm_num at h ⊢ <;> omega

theorem IntScalar.overflows_eq {t : IntType} (x y : IntScalar t) :
    QuotientOverflow.overflows x y = decide (¬ t.promoted.inRange (x.val.tdiv y.val)) := rfl

/-- The only overflowing quotient of the integer scalar types is the minimum of
`int32_t` or of `int64_t` divided by `-1`. -/
theorem IntScalar.overflows_iff {t : IntType} (x y : IntScalar t) :
    QuotientOverflow.overflows x y = true ↔
      (t = IntType.i32 ∨ t = IntType.i64) ∧ x.val = -(2 ^ (8 * t.sizeof - 1)) ∧ y.val = -1 := by
  rw [IntScalar.overflows_eq, decide_eq_true_iff]
  have hx := x.inRange
  have hy := y.inRange
  have h1 := tdiv_natAbs_le x.val y.val
  have h2 := tdiv_natAbs_half x.val y.val
  have h3 : 0 ≤ x.val → 0 ≤ y.val → 0 ≤ x.val.tdiv y.val := Int.tdiv_nonneg
  have h4 : y.val = -1 → x.val.tdiv y.val = -x.val := by
    intro e
    rw [e, Int.tdiv_neg, Int.tdiv_one]
  have h5 : y.val = 1 → x.val.tdiv y.val = x.val := by
    intro e
    rw [e, Int.tdiv_one]
  have h6 : y.val = 0 → x.val.tdiv y.val = 0 := by
    intro e
    rw [e, Int.tdiv_zero]
  generalize x.val.tdiv y.val = q at h1 h2 h3 h4 h5 h6 ⊢
  generalize x.val = a at hx h1 h2 h3 h4 h5 h6 ⊢
  generalize y.val = b at hy h1 h2 h3 h4 h5 h6 ⊢
  cases t <;>
    simp only [IntType.inRange, IntType.promoted, IntType.signed, IntType.sizeof, reduceCtorEq,
      or_self, or_true, true_or, false_and, true_and] at hx hy ⊢ <;>
    norm_num at hx hy ⊢ <;> omega

/-- The quotient of a representable product by its non-zero factor does not
overflow. -/
theorem IntScalar.mul_quotient_no_overflow {t : IntType} (x s : IntScalar t) (hs : s ≠ 0)
    (h : t.inRange (x.val * s.val)) : QuotientOverflow.overflows (x * s) s = false := by
  have hs' : s.val ≠ 0 := by
    intro e
    apply hs
    apply IntScalar.eq_of_val_eq
    rw [e, IntScalar.zero_val]
  rw [IntScalar.overflows_eq, decide_eq_false_iff_not, not_not, IntScalar.mul_val,
    t.wrap_of_inRange h, Int.mul_tdiv_cancel _ hs']
  exact t.inRange_promoted x.inRange

/-! ### Djb2 -/

/-- One round of the loop of `Djb2::Hash` is `hash * 33 + byte` modulo `2^w`. -/
theorem Djb2.round_eq (w hash d : Nat) :
    (((hash <<< 5) % 2 ^ w + hash) % 2 ^ w + d) % 2 ^ w = (hash * 33 + d) % 2 ^ w := by
  rw [Nat.shiftLeft_eq, Nat.mod_add_mod, Nat.add_assoc, Nat.mod_add_mod]
  congr 1
  ring

theorem Djb2.HashFrom_eq_foldl (w : Nat) (hash : Nat) (data : List (Fin 256)) :
    Djb2.HashFrom w hash data
      = data.foldl (fun h (d : Fin 256) => (h * 33 + d.val) % 2 ^ w) hash := by
  induction data generalizing hash with
  | nil => rfl
  | cons d data ih =>
    rw [Djb2.HashFrom, List.foldl_cons, Djb2.round_eq, ih]

theorem Djb2.seed_fits {w : Nat} (hw : 13 ≤ w) : 5381 % 2 ^ w = 5381 := by
  apply Nat.mod_eq_of_lt
  calc 5381 < 2 ^ 13 := by norm_num
    _ ≤ 2 ^ w := Nat.pow_le_pow_right (by norm_num) hw

/-- The first round from the seed 5381 is the first round from the stored seed
`5381 mod 2^w`. -/
theorem Djb2.first_round_eq (w d : Nat) :
    (5381 % 2 ^ w * 33 + d) % 2 ^ w = (5381 * 33 + d) % 2 ^ w := by
  rw [Nat.add_mod, Nat.mul_mod, Nat.mod_mod, ← Nat.mul_mod, ← Nat.add_mod]

/-- On a buffer that is not empty the fold may start from 5381 itself. -/
theorem Djb2.Hash_eq_foldl_of_ne_nil (w : Nat) (data : List (Fin 256)) (h : data ≠ []) :
    Djb2.Hash w data
      = data.foldl (fun h (d : Fin 256) => (h * 33 + d.val) % 2 ^ w) 5381 := by
  cases data with
  | nil => exact absurd rfl h
  | cons d data =>
    rw [Djb2.Hash, Djb2.HashFrom_eq_foldl, List.foldl_cons, List.foldl_cons,
      Djb2.first_round_eq]

/-- On a square shape `Inverse()` is defined and returns the identity, whatever
the receiver and the storage of the result hold. -/
theorem Matrix.Inverse_square [Zero α] [One α] {n : Nat} (m : Matrix α n n)
    (init : Matrix α n n) :
    ∃ r, m.Inverse init = some r ∧
      ∀ i j, i < n → j < n → r.load (i * n + j) = some (if i = j then 1 else 0) := by
  obtain ⟨r, hr, h⟩ := Matrix.ctorScalar_square (1 : α) init
  exact ⟨r, by rw [← hr]; rfl, h⟩

/-! ### Access traces -/

/-- A loop whose iterations are defined or not independently of the state is
defined exactly when all its iterations are. -/
theorem forLoop_isSome_iff {σ : Type} (n : Nat) (body : Nat → σ → Option σ) (s : σ)
    (D : Nat → Prop) (hD : ∀ i t, (body i t).isSome = true ↔ D i) :
    (forLoop n body s).isSome = true ↔ ∀ i, i < n → D i := by
  induction n with
  | zero => simp [forLoop]
  | succ n ih =>
    rw [forLoop_succ]
    cases h : forLoop n body s with
    | none =>
      rw [h] at ih
      simp only [Option.none_bind, Option.isSome_none, Bool.false_eq_true, false_iff]
      intro hall
      have := ih.mpr (fun i hi => hall i (Nat.lt_succ_of_lt hi))
      simp at this
    | some t =>
      rw [h] at ih
      simp only [Option.some_bind]
      rw [hD n t]
      constructor
      · intro hn i hi
        rcases Nat.lt_succ_iff_lt_or_eq.mp hi with h1 | h1
        · exact ih.mp rfl i h1
        · subst h1; exact hn
      · intro hall
        exact hall n (Nat.lt_succ_self n)

theorem Matrix.store_isSome_iff (m : Matrix α Width Height) (k : Nat) (v : α) :
    (m.store k v).isSome = true ↔ k < Width * Height := by
  by_cases h : k < Width * Height
  · simp [Matrix.store_of_lt m h, h]
  · simp [Matrix.store_of_not_lt m h, h]

theorem Matrix.mem_ctorOffsets {Width Height k : Nat} :
    k ∈ Matrix.ctorOffsets Width Height ↔ ∃ i, i < Width ∧ ∃ j, j < Height ∧ i * Width + j = k := by
  simp [Matrix.ctorOffsets, List.mem_flatMap, List.mem_map, List.mem_range]

/-- The trace is faithful to the constructor: the scalar constructor (and with it
the default constructor) is defined exactly when every offset of the trace lies
inside the storage. -/
theorem Matrix.ctorScalar_isSome_iff [Zero α] (s : α) (init : Matrix α Width Height) :
    (Matrix.ctorScalar s init).isSome = true
      ↔ ∀ k, k ∈ Matrix.ctorOffsets Width Height → k < Width * Height := by
  unfold Matrix.ctorScalar
  rw [forLoop_isSome_iff Width _ init (fun i => ∀ j, j < Height → i * Width + j < Width * Height)
    (fun i t => forLoop_isSome_iff Height _ t (fun j => i * Width + j < Width * Height)
      (fun j u => Matrix.store_isSome_iff u _ _))]
  constructor
  · intro h k hk
    obtain ⟨i, hi, j, hj, e⟩ := Matrix.mem_ctorOffsets.mp hk
    rw [← e]
    exact h i hi j hj
  · intro h i hi j hj
    exact h _ (Matrix.mem_ctorOffsets.mpr ⟨i, hi, j, hj, rfl⟩)

/-- On a square shape the trace of the constructors is exactly the storage: every
offset stored at is inside it and every offset of it is stored at. -/
theorem Matrix.ctorOffsets_square (n k : Nat) :
    k ∈ Matrix.ctorOffsets n n ↔ k < n * n := by
  rw [Matrix.mem_ctorOffsets]
  constructor
  · rintro ⟨i, hi, j, hj, e⟩
    rw [← e]
    exact offset_lt hi hj
  · intro hk
    have hn : 0 < n := by
      rcases Nat.eq_zero_or_pos n with h | h
      · subst h; simp at hk
      · exact h
    refine ⟨k / n, (Nat.div_lt_iff_lt_mul hn).mpr hk, k % n, Nat.mod_lt _ hn, ?_⟩
    rw [Nat.mul_comm]
    exact Nat.div_add_mod k n

end Lemmas

/-! ## Claims -/

section Claims

/-- C5: the element-list constructor stores `L[k]` at offset `k` for every
`k < min(|L|, Width*Height)` and zero at every later offset of the storage,
whatever the storage held before; `Matrix<int,3,3>({1,2})` has storage
`[1,2,0,0,0,0,0,0,0]`. -/
theorem ctorElements_row_major_zero_fill :
    (∀ (α : Type) [Zero α] (Width Height : Nat) (L : List α) (init : Matrix α Width Height),
      ∃ m, Matrix.ctorElements L init = some m ∧
        (∀ k (h : k < min L.length (Width * Height)),
          m.load k = some (L.get ⟨k, Nat.lt_of_lt_of_le h (Nat.min_le_left _ _)⟩)) ∧
        (∀ k, min L.length (Width * Height) ≤ k → k < Width * Height → m.load k = some 0)) ∧
    (∀ init : Matrix Int 3 3,
      (Matrix.ctorElements [1, 2] init).map Matrix.toList = some [1, 2, 0, 0, 0, 0, 0, 0, 0]) := by
  refine ⟨?_, fun init => rfl⟩
  intro α _ Width Height L init
  have hmn : (if Width * Height ≤ L.length then Width * Height else L.length)
      = min L.length (Width * Height) := by
    split <;> omega
  obtain ⟨st, hst, hj, hcopy⟩ := forLoop_invariant
    (fun i (st : Matrix α Width Height × Nat) =>
      st.2 = i ∧ ∀ k, k < i → st.1.load k = L[k]?)
    (min L.length (Width * Height))
    (fun i (st : Matrix α Width Height × Nat) =>
      L[st.2]?.bind (fun x => (st.1.store i x).map (fun m => (m, st.2 + 1))))
    (init, 0)
    ⟨rfl, fun k hk => absurd hk (Nat.not_lt_zero _)⟩
    (by
      rintro i hi ⟨t, j⟩ ⟨hj, hP⟩
      simp only at hj hP
      subst hj
      have hiL : j < L.length := by omega
      have hiS : j < Width * Height := by omega
      have hs := Matrix.store_of_lt t hiS L[j]
      refine ⟨(⟨Function.update t.mData ⟨j, hiS⟩ L[j]⟩, j + 1), ?_, rfl, ?_⟩
      · show L[j]?.bind (fun x => (t.store j x).map (fun m => (m, j + 1))) = _
        rw [List.getElem?_eq_getElem hiL]
        show (t.store j L[j]).map (fun m => (m, j + 1)) = _
        rw [hs]; rfl
      · intro k hk
        show Matrix.load _ k = _
        rw [Matrix.load_store hs]
        by_cases e : k = j
        · subst e; simp [List.getElem?_eq_getElem hiL]
        · simp only [e, if_false]
          exact hP k (by omega))
  obtain ⟨m, hm, hkeep, hzero⟩ := forLoop_invariant
    (fun i (t : Matrix α Width Height) =>
      (∀ k, k < min L.length (Width * Height) → t.load k = L[k]?) ∧
      (∀ k, min L.length (Width * Height) ≤ k → k < min L.length (Width * Height) + i →
        t.load k = some 0))
    (Width * Height - min L.length (Width * Height))
    (fun k (t : Matrix α Width Height) => t.store (min L.length (Width * Height) + k) 0)
    st.1
    ⟨hcopy, fun k h1 h2 => by omega⟩
    (by
      intro i hi t hP
      have hiS : min L.length (Width * Height) + i < Width * Height := by omega
      have hs := Matrix.store_of_lt t hiS (0 : α)
      refine ⟨_, hs, ?_, ?_⟩
      · intro k hk
        rw [Matrix.load_store hs]
        have e : k ≠ min L.length (Width * Height) + i := by omega
        simp only [e, if_false]
        exact hP.1 k hk
      · intro k h1 h2
        rw [Matrix.load_store hs]
        by_cases e : k = min L.length (Width * Height) + i
        · simp [e]
        · simp only [e, if_false]
          exact hP.2 k h1 (by omega))
  refine ⟨m, ?_, ?_, ?_⟩
  · simp only [Matrix.ctorElements, forRange, hmn]
    rw [hst]
    exact hm
  · intro k hk
    rw [hkeep k hk, List.getElem?_eq_getElem]
    rfl
  · intro k h1 h2
    exact hzero k h1 (by omega)

/-- Witness of C5 at `Matrix<int,3,3>({1,2})` on storage holding sevens: offset 1
holds `L[1] = 2`, offset 8 holds zero. -/
theorem ctorElements_row_major_zero_fill_witness :
    ∃ m, Matrix.ctorElements [1, 2] (⟨fun _ => 7⟩ : Matrix Int 3 3) = some m ∧
      m.load 1 = some 2 ∧ m.load 8 = some 0 := by
  obtain ⟨m, hm, h1, h2⟩ :=
    ctorElements_row_major_zero_fill.1 Int 3 3 [1, 2] ⟨fun _ => 7⟩
  exact ⟨m, hm, h1 1 (by decide), h2 8 (by decide) (by decide)⟩

/-- C6: after `M.setRow(i, r)` with a valid row index, `M.getRow(i)` returns `r`. -/
theorem setRow_getRow {α : Type} {Width Height : Nat} (m : Matrix α Width Height)
    (i : Nat) (r : Vector α Width) (hi : i < Height) :
    (m.setRow i r).bind (fun n => n.getRow i) = some r := by
  obtain ⟨n, hn, hrow, _⟩ := Matrix.setRow_spec m i r hi
  rw [hn]
  show n.getRow i = some r
  rw [Matrix.getRow_of_lt n hi]
  congr 1
  apply Vector.ext_components
  intro c
  have := hrow c.val c.isLt
  rw [Matrix.load_of_lt _ (offset_lt hi c.isLt)] at this
  exact Option.some.inj this

/-- Witness of C6: row 1 of a 2x2 matrix is overwritten and read back. -/
theorem setRow_getRow_witness :
    ((⟨![1, 2, 3, 4]⟩ : Matrix Int 2 2).setRow 1 ⟨![8, 9]⟩).bind (fun n => n.getRow 1)
      = some ⟨![8, 9]⟩ :=
  setRow_getRow _ 1 _ (by decide)

/-- C7: after `M.setColumn(i, c)` with a valid column index, `M.getColumn(i)`
returns `c`. -/
theorem setColumn_getColumn {α : Type} [Zero α] {Width Height : Nat}
    (m : Matrix α Width Height) (i : Nat) (c : Vector α Height) (hi : i < Width) :
    (m.setColumn i c).bind (fun n => n.getColumn i) = some c := by
  obtain ⟨n, hn, hcol, _⟩ := Matrix.setColumn_spec m i c hi
  rw [hn]
  exact Matrix.getColumn_of_loads n i c.data hcol

/-- Witness of C7: column 2 of a matrix with 3 columns and 2 rows is overwritten
and read back. -/
theorem setColumn_getColumn_witness :
    ((⟨![1, 2, 3, 4, 5, 6]⟩ : Matrix Int 3 2).setColumn 2 ⟨![8, 9]⟩).bind
        (fun n => n.getColumn 2) = some ⟨![8, 9]⟩ :=
  setColumn_getColumn _ 2 _ (by decide)

/-- C8: for `r < Height` and `c < Width` the reads `getRow(r)[c]`,
`getColumn(c)[r]` and `M[r][c]` are all defined and all equal the scalar stored
at offset `r * Width + c` of `ptr()`. -/
theorem accessors_agree_on_offset {α : Type} [Zero α] {Width Height : Nat}
    (m : Matrix α Width Height) (r c : Nat) (hr : r < Height) (hc : c < Width) :
    ∃ x, m.deref m.ptr (r * Width + c) = some x ∧
      (m.getRow r).bind (fun row => row.load c) = some x ∧
      (m.getColumn c).bind (fun col => col.load r) = some x ∧
      m.deref (m.operatorIndex r) c = some x := by
  have hlt : r * Width + c < Width * Height := offset_lt hr hc
  refine ⟨m.mData ⟨r * Width + c, hlt⟩, ?_, ?_, ?_, ?_⟩
  · simp [Matrix.deref, Matrix.ptr, Matrix.load_of_lt m hlt]
  · rw [Matrix.getRow_of_lt m hr]
    show Vector.load _ c = _
    rw [Vector.component_of_lt _ hc]
  · rw [Matrix.getColumn_of_loads m c
      (fun i => m.mData ⟨i.val * Width + c, offset_lt i.isLt hc⟩)
      (fun i hi => Matrix.load_of_lt m (offset_lt hi hc))]
    show Vector.load _ r = _
    rw [Vector.component_of_lt _ hr]
  · simp [Matrix.deref, Matrix.operatorIndex, Matrix.load_of_lt m hlt]

/-- Witness of C8 at row 1, column 2 of a matrix with 3 columns and 2 rows. -/
theorem accessors_agree_on_offset_witness :
    ∃ x, (⟨![1, 2, 3, 4, 5, 6]⟩ : Matrix Int 3 2).deref
          (Matrix.ptr (⟨![1, 2, 3, 4, 5, 6]⟩ : Matrix Int 3 2)) (1 * 3 + 2) = some x ∧
      ((⟨![1, 2, 3, 4, 5, 6]⟩ : Matrix Int 3 2).getRow 1).bind (fun row => row.load 2)
        = some x ∧
      ((⟨![1, 2, 3, 4, 5, 6]⟩ : Matrix Int 3 2).getColumn 2).bind (fun col => col.load 1)
        = some x ∧
      (⟨![1, 2, 3, 4, 5, 6]⟩ : Matrix Int 3 2).deref
          (Matrix.operatorIndex (⟨![1, 2, 3, 4, 5, 6]⟩ : Matrix Int 3 2) 1) 2 = some x :=
  accessors_agree_on_offset _ 1 2 (by decide) (by decide)

/-- C10: for matrices over an integer scalar type, `A == B` is defined and true
exactly when the two hold equal scalars at every one of the `Width*Height`
storage offsets, and `A != B` is its negation. -/
theorem operatorEq_iff_all_offsets_equal (t : IntType) {Width Height : Nat}
    (A B : Matrix Int Width Height)
    (hA : ∀ k, t.inRange (A.mData k)) (hB : ∀ k, t.inRange (B.mData k)) :
    ∃ b, A.operatorEq t B = some b ∧
      (b = true ↔ ∀ k (h : k < Width * Height), A.mData ⟨k, h⟩ = B.mData ⟨k, h⟩) ∧
      A.operatorNe t B = some (!b) := by
  have hlen : (A.objectBytes t).length = (B.objectBytes t).length := by
    rw [Matrix.storageBytes_length, Matrix.storageBytes_length]
  obtain ⟨r, hr, hiff⟩ := memcmp_eq_zero_iff _ _ hlen
  rw [Matrix.storageBytes_length] at hr
  refine ⟨r == 0, ?_, ?_, ?_⟩
  · simp [Matrix.operatorEq, hr]
  · rw [beq_iff_eq, hiff]
    constructor
    · intro h k hk
      have h' := flatMap_objectBytes_inj t _ _ (by simp)
        (List.forall_mem_ofFn_iff.mpr hA) (List.forall_mem_ofFn_iff.mpr hB) h
      rw [List.ofFn_inj.mp h']
    · intro h
      have : A.mData = B.mData := funext (fun k => h k.val k.isLt)
      unfold Matrix.objectBytes
      rw [this]
  · simp [Matrix.operatorNe, hr, bne]

/-- Witness of C10 on two 2x2 `int32_t` matrices that differ at offset 3. -/
theorem operatorEq_iff_all_offsets_equal_witness :
    ∃ b, (⟨![1, -2, 3, 4]⟩ : Matrix Int 2 2).operatorEq IntType.i32 ⟨![1, -2, 3, 5]⟩ = some b ∧
      (b = true ↔ ∀ k (h : k < 2 * 2),
        (⟨![1, -2, 3, 4]⟩ : Matrix Int 2 2).mData ⟨k, h⟩
          = (⟨![1, -2, 3, 5]⟩ : Matrix Int 2 2).mData ⟨k, h⟩) ∧
      (⟨![1, -2, 3, 4]⟩ : Matrix Int 2 2).operatorNe IntType.i32 ⟨![1, -2, 3, 5]⟩
        = some (!b) :=
  operatorEq_iff_all_offsets_equal IntType.i32 _ _ (by decide) (by decide)

/-- C1 (the code at `Matrix<int,2,1>({1,2})`, Width 2 and Height 1, row 0):
`getRow(0)` is `(1,2)`, but `transpose()` runs its loop to `i = 1` and reads row 1
of a one-row matrix, outside the storage, so `transpose().getColumn(0)` is
undefined. -/
theorem transpose_getColumn_undefined_wide (init : Matrix Int 1 2) :
    (⟨![1, 2]⟩ : Matrix Int 2 1).getRow 0 = some ⟨![1, 2]⟩ ∧
    (⟨![1, 2]⟩ : Matrix Int 2 1).getRow 1 = none ∧
    ((⟨![1, 2]⟩ : Matrix Int 2 1).transpose init).bind (fun t => t.getColumn 0) = none := by
  refine ⟨?_, rfl, rfl⟩
  rw [Matrix.getRow_of_lt _ (by decide)]
  congr 2
  funext c
  fin_cases c <;> rfl

/-- C2 (the code at `Matrix<int,1,2>({1,2})`, Width 1 and Height 2): the
temporary of `transpose()` is a `Matrix<int,2,1>`, whose default constructor
writes `mData[1 * 2 + 0]` outside its two-element storage, so the first
`transpose()` is already undefined. -/
theorem transpose_transpose_undefined_tall (init : Matrix Int 2 1) (init2 : Matrix Int 1 2) :
    Matrix.ctor init = none ∧
    (⟨![1, 2]⟩ : Matrix Int 1 2).transpose init = none ∧
    ((⟨![1, 2]⟩ : Matrix Int 1 2).transpose init).bind (fun t => t.transpose init2) = none :=
  ⟨rfl, rfl, rfl⟩

/-- C3 (the code at `Matrix<int,2,3>()`, Width 2 and Height 3): the loops write
the offsets 0..4 only, so offset 5 (row 2, column 1) keeps whatever the storage
held; and at `Matrix<int,3,2>()` the loops write offset 6 of a six-element
storage. -/
theorem ctor_nonsquare_not_identity :
    (∀ init : Matrix Int 2 3,
      (Matrix.ctor init).map Matrix.toList = some [1, 0, 0, 1, 0, init.mData ⟨5, by decide⟩]) ∧
    (Matrix.ctor (⟨fun _ => 7⟩ : Matrix Int 2 3)).bind (fun m => m.load (2 * 2 + 1)) = some 7 ∧
    (∀ init : Matrix Int 3 2, Matrix.ctor init = none) :=
  ⟨fun _ => rfl, rfl, fun _ => rfl⟩

/-- C4 (the code at `Matrix<int,3,2>(5)`, Width 3 and Height 2): the loops write
`mData[2 * 3 + 0]`, outside the six-element storage; and at `Matrix<int,2,3>(5)`
offset 5 (row 2, column 1) is never written. -/
theorem ctorScalar_nonsquare_not_diagonal :
    (∀ init : Matrix Int 3 2, Matrix.ctorScalar 5 init = none) ∧
    (∀ init : Matrix Int 2 3,
      (Matrix.ctorScalar 5 init).map Matrix.toList
        = some [5, 0, 0, 5, 0, init.mData ⟨5, by decide⟩]) ∧
    (Matrix.ctorScalar 5 (⟨fun _ => 7⟩ : Matrix Int 2 3)).bind (fun m => m.load (2 * 2 + 1))
      = some 7 :=
  ⟨fun _ => rfl, fun _ => rfl, rfl⟩

/-- C9 (the code at Width 2 and Height 3): neither constructor writes offset 5,
so `Matrix<int32_t,2,3>()` built on storage holding zeros and
`Matrix<int32_t,2,3>(1)` built on storage holding sevens differ there and
`operator==` is false. -/
theorem ctor_ne_ctorScalar_one_tall :
    ∃ a b, Matrix.ctor (⟨fun _ => 0⟩ : Matrix Int 2 3) = some a ∧
      Matrix.ctorScalar 1 (⟨fun _ => 7⟩ : Matrix Int 2 3) = some b ∧
      a.load 5 = some 0 ∧ b.load 5 = some 7 ∧
      a.operatorEq IntType.i32 b = some false := by
  refine ⟨_, _, rfl, rfl, rfl, rfl, ?_⟩
  decide

/-- C11 (counterexample): for `int32_t` vectors `a = (-2147483648)` and
`b = (-1)` every `b[i]` is non-zero, yet `a / b` is undefined: the quotient
`2147483648` is not representable and the division traps. -/
theorem binary_quotient_undefined_i32 :
    (∀ i, (IntScalar.vector IntType.i32 [-1] : Vector (IntScalar IntType.i32) 1).data i ≠ 0) ∧
    operatorDivVV
        (IntScalar.vector IntType.i32 [-2147483648] : Vector (IntScalar IntType.i32) 1)
        (IntScalar.vector IntType.i32 [-1]) = none :=
  ⟨by decide, Option.not_isSome_iff_eq_none.mp (by decide)⟩

/-- C11 (amended): for vectors `a`, `b` of the same length the binary operators
`a + b`, `a - b`, `a * b` and, when every `b[i]` is non-zero and no quotient
`a[i] / b[i]` overflows, `a / b` are defined and return the vector whose `i`-th
component is `a[i] OP b[i]`; after the call the caller holds `a` and `b`
unchanged. -/
theorem binary_operators_componentwise {α : Type} [Add α] [Sub α] [Mul α] [Div α] [Zero α]
    [DecidableEq α] [QuotientOverflow α] {Length : Nat} (a b : Vector α Length) :
    (operatorAddVV a b = some ⟨fun i => a.data i + b.data i⟩ ∧
      callBinary operatorAddVV a b = some (a, b, ⟨fun i => a.data i + b.data i⟩)) ∧
    (operatorSubVV a b = some ⟨fun i => a.data i - b.data i⟩ ∧
      callBinary operatorSubVV a b = some (a, b, ⟨fun i => a.data i - b.data i⟩)) ∧
    (operatorMulVV a b = some ⟨fun i => a.data i * b.data i⟩ ∧
      callBinary operatorMulVV a b = some (a, b, ⟨fun i => a.data i * b.data i⟩)) ∧
    ((∀ i, b.data i ≠ 0 ∧ QuotientOverflow.overflows (a.data i) (b.data i) = false) →
      operatorDivVV a b = some ⟨fun i => a.data i / b.data i⟩ ∧
      callBinary operatorDivVV a b = some (a, b, ⟨fun i => a.data i / b.data i⟩)) := by
  refine ⟨⟨operatorAddVV_eq a b, ?_⟩, ⟨operatorSubVV_eq a b, ?_⟩, ⟨operatorMulVV_eq a b, ?_⟩,
    fun h => ?_⟩
  · rw [callBinary, operatorAddVV_eq]; rfl
  · rw [callBinary, operatorSubVV_eq]; rfl
  · rw [callBinary, operatorMulVV_eq]; rfl
  · have hd : operatorDivVV a b = some ⟨fun i => a.data i / b.data i⟩ :=
      operatorDivAssignVV_eq a b (fun i => (h i).1) (fun i => (h i).2)
    exact ⟨hd, by rw [callBinary, hd]; rfl⟩

/-- Witness of C11 (amended): the quotient of two `int32_t` vectors with non-zero
divisors and no overflowing quotient. -/
theorem binary_operators_componentwise_witness :
    operatorDivVV (IntScalar.vector IntType.i32 [7, -9] : Vector (IntScalar IntType.i32) 2)
        (IntScalar.vector IntType.i32 [2, 3])
      = some ⟨fun i =>
          (IntScalar.vector IntType.i32 [7, -9] : Vector (IntScalar IntType.i32) 2).data i
            / (IntScalar.vector IntType.i32 [2, 3] : Vector (IntScalar IntType.i32) 2).data i⟩ :=
  ((binary_operators_componentwise _ _).2.2.2 (by decide)).1

/-- C12 (counterexample): for `int64_t` vectors `a = (7, -9223372036854775808)`
and `b = (2, -1)` every `b[i]` is non-zero, yet `a /= b` is undefined: the second
quotient is not representable and the division traps. -/
theorem compound_quotient_undefined_i64 :
    (∀ i,
      (IntScalar.vector IntType.i64 [2, -1] : Vector (IntScalar IntType.i64) 2).data i ≠ 0) ∧
    operatorDivAssignVV
        (IntScalar.vector IntType.i64 [7, -9223372036854775808] :
          Vector (IntScalar IntType.i64) 2)
        (IntScalar.vector IntType.i64 [2, -1]) = none :=
  ⟨by decide, Option.not_isSome_iff_eq_none.mp (by decide)⟩

/-- C12 (amended): for `+`, `-`, `*` and, when every `b[i]` is non-zero and no
quotient `a[i] / b[i]` overflows, `/`, the call `a OP= b` is defined; after it
the left operand of the caller holds exactly the vector that the binary form
`a OP b` returns, the returned reference denotes that same left operand, and `b`
is unchanged. -/
theorem compound_operators_agree_with_binary {α : Type} [Add α] [Sub α] [Mul α] [Div α]
    [Zero α] [DecidableEq α] [QuotientOverflow α] {Length : Nat} (a b : Vector α Length) :
    (∃ r, operatorAddVV a b = some r ∧ callCompound operatorAddAssignVV a b = some (r, b, r) ∧
      r = ⟨fun i => a.data i + b.data i⟩) ∧
    (∃ r, operatorSubVV a b = some r ∧ callCompound operatorSubAssignVV a b = some (r, b, r) ∧
      r = ⟨fun i => a.data i - b.data i⟩) ∧
    (∃ r, operatorMulVV a b = some r ∧ callCompound operatorMulAssignVV a b = some (r, b, r) ∧
      r = ⟨fun i => a.data i * b.data i⟩) ∧
    ((∀ i, b.data i ≠ 0 ∧ QuotientOverflow.overflows (a.data i) (b.data i) = false) →
      ∃ r, operatorDivVV a b = some r ∧
        callCompound operatorDivAssignVV a b = some (r, b, r) ∧
        r = ⟨fun i => a.data i / b.data i⟩) := by
  refine ⟨⟨_, operatorAddVV_eq a b, ?_, rfl⟩, ⟨_, operatorSubVV_eq a b, ?_, rfl⟩,
    ⟨_, operatorMulVV_eq a b, ?_, rfl⟩, fun h => ?_⟩
  · rw [callCompound, operatorAddAssignVV_eq]; rfl
  · rw [callCompound, operatorSubAssignVV_eq]; rfl
  · rw [callCompound, operatorMulAssignVV_eq]; rfl
  · have hd : operatorDivAssignVV a b = some ⟨fun i => a.data i / b.data i⟩ :=
      operatorDivAssignVV_eq a b (fun i => (h i).1) (fun i => (h i).2)
    exact ⟨_, hd, by rw [callCompound, hd]; rfl, rfl⟩

/-- Witness of C12 (amended): `a /= b` on two `int32_t` vectors with non-zero
divisors and no overflowing quotient. -/
theorem compound_operators_agree_with_binary_witness :
    ∃ r, operatorDivVV (IntScalar.vector IntType.i32 [7, -9] : Vector (IntScalar IntType.i32) 2)
          (IntScalar.vector IntType.i32 [2, 3]) = some r ∧
      callCompound operatorDivAssignVV
          (IntScalar.vector IntType.i32 [7, -9] : Vector (IntScalar IntType.i32) 2)
          (IntScalar.vector IntType.i32 [2, 3])
        = some (r, IntScalar.vector IntType.i32 [2, 3], r) ∧
      r = ⟨fun i =>
          (IntScalar.vector IntType.i32 [7, -9] : Vector (IntScalar IntType.i32) 2).data i
            / (IntScalar.vector IntType.i32 [2, 3] : Vector (IntScalar IntType.i32) 2).data i⟩ :=
  (compound_operators_agree_with_binary _ _).2.2.2 (by decide)

/-- C13 (counterexample): for the `int32_t` scalar `s = -2147483648` and the
vector `v = (5, -1)` every `v[i]` is non-zero, yet `s / v` is undefined: the
quotient `s / v[1]` is not representable and the division traps. -/
theorem scalar_left_quotient_undefined_i32 :
    (∀ i, (IntScalar.vector IntType.i32 [5, -1] : Vector (IntScalar IntType.i32) 2).data i ≠ 0) ∧
    operatorDivSV (IntScalar.ofInt IntType.i32 (-2147483648))
        (IntScalar.vector IntType.i32 [5, -1] : Vector (IntScalar IntType.i32) 2) = none :=
  ⟨by decide, Option.not_isSome_iff_eq_none.mp (by decide)⟩

/-- C13 (amended): the scalar-left operators keep the operand order:
`(s + v)[i] = s + v[i]`, `(s - v)[i] = s - v[i]`, `(s * v)[i] = s * v[i]` and,
when every `v[i]` is non-zero and no quotient `s / v[i]` overflows,
`(s / v)[i] = s / v[i]`; and there are an `int32_t` scalar `s` and vector `v`
for which `s - v` differs from `v - s`. -/
theorem scalar_left_operators_keep_order :
    (∀ (α : Type) [Add α] [Sub α] [Mul α] [Div α] [Zero α] [DecidableEq α]
        [QuotientOverflow α] (Length : Nat) (s : α) (v : Vector α Length),
      operatorAddSV s v = some ⟨fun i => s + v.data i⟩ ∧
      operatorSubSV s v = some ⟨fun i => s - v.data i⟩ ∧
      operatorMulSV s v = some ⟨fun i => s * v.data i⟩ ∧
      ((∀ i, v.data i ≠ 0 ∧ QuotientOverflow.overflows s (v.data i) = false) →
        operatorDivSV s v = some ⟨fun i => s / v.data i⟩)) ∧
    (∃ (s : IntScalar IntType.i32) (v : Vector (IntScalar IntType.i32) 1),
      operatorSubSV s v ≠ operatorSubVS v s) := by
  refine ⟨fun α _ _ _ _ _ _ _ Length s v =>
    ⟨operatorAddSV_eq s v, operatorSubSV_eq s v, operatorMulSV_eq s v,
      fun hv => operatorDivSV_eq s v (fun i => (hv i).1) (fun i => (hv i).2)⟩, ?_⟩
  refine ⟨IntScalar.ofInt IntType.i32 1, IntScalar.vector IntType.i32 [0], ?_⟩
  intro h
  have hval := congrArg
    (fun o : Option (Vector (IntScalar IntType.i32) 1) =>
      o.map (fun r => r.toList.map IntScalar.val)) h
  revert hval
  decide

/-- Witness of C13 (amended): `s / v` for an `int32_t` scalar and a vector
without zeros, no quotient overflowing. -/
theorem scalar_left_operators_keep_order_witness :
    operatorDivSV (IntScalar.ofInt IntType.i32 12)
        (IntScalar.vector IntType.i32 [5, -4] : Vector (IntScalar IntType.i32) 2)
      = some ⟨fun i => IntScalar.ofInt IntType.i32 12
          / (IntScalar.vector IntType.i32 [5, -4] : Vector (IntScalar IntType.i32) 2).data i⟩ :=
  (scalar_left_operators_keep_order.1 _ 2 _ _).2.2.2 (by decide)

/-- C14 (counterexample): for the `int64_t` vector `v = (-9223372036854775808)`
and the non-zero scalar `s = -1` the quotient `v / s` is undefined: it is not
representable and the division traps. -/
theorem vector_left_quotient_undefined_i64 :
    IntScalar.ofInt IntType.i64 (-1) ≠ 0 ∧
    operatorDivVS
        (IntScalar.vector IntType.i64 [-9223372036854775808] : Vector (IntScalar IntType.i64) 1)
        (IntScalar.ofInt IntType.i64 (-1)) = none :=
  ⟨by decide, Option.not_isSome_iff_eq_none.mp (by decide)⟩

/-- C14 (amended): the vector-left scalar operators broadcast the scalar:
`(v OP s)[i] = v[i] OP s` for `+`, `-`, `*` and, when `s` is non-zero and no
quotient `v[i] / s` overflows, `/`.  After the binary call the caller still holds
`v`, while the compound call `v OP= s`, which the binary form applies to its
copy, leaves the result in its operand. -/
theorem vector_left_scalar_broadcast {α : Type} [Add α] [Sub α] [Mul α] [Div α] [Zero α]
    [DecidableEq α] [QuotientOverflow α] {Length : Nat} (v : Vector α Length) (s : α) :
    (∃ r, callBinary operatorAddVS v s = some (v, s, r) ∧
      callCompound operatorAddAssignVS v s = some (r, s, r) ∧
      r = ⟨fun i => v.data i + s⟩) ∧
    (∃ r, callBinary operatorSubVS v s = some (v, s, r) ∧
      callCompound operatorSubAssignVS v s = some (r, s, r) ∧
      r = ⟨fun i => v.data i - s⟩) ∧
    (∃ r, callBinary operatorMulVS v s = some (v, s, r) ∧
      callCompound operatorMulAssignVS v s = some (r, s, r) ∧
      r = ⟨fun i => v.data i * s⟩) ∧
    ((s ≠ 0 ∧ ∀ i, QuotientOverflow.overflows (v.data i) s = false) →
      ∃ r, callBinary operatorDivVS v s = some (v, s, r) ∧
        callCompound operatorDivAssignVS v s = some (r, s, r) ∧
        r = ⟨fun i => v.data i / s⟩) := by
  refine ⟨⟨_, ?_, ?_, rfl⟩, ⟨_, ?_, ?_, rfl⟩, ⟨_, ?_, ?_, rfl⟩, fun h => ⟨_, ?_, ?_, rfl⟩⟩
  · rw [callBinary, operatorAddVS, operatorAddAssignVS_eq]; rfl
  · rw [callCompound, operatorAddAssignVS_eq]; rfl
  · rw [callBinary, operatorSubVS, operatorSubAssignVS_eq]; rfl
  · rw [callCompound, operatorSubAssignVS_eq]; rfl
  · rw [callBinary, operatorMulVS, operatorMulAssignVS_eq]; rfl
  · rw [callCompound, operatorMulAssignVS_eq]; rfl
  · rw [callBinary, operatorDivVS, operatorDivAssignVS_eq v h.1 h.2]; rfl
  · rw [callCompound, operatorDivAssignVS_eq v h.1 h.2]; rfl

/-- Witness of C14 (amended): an `int32_t` vector divided by the scalar 2. -/
theorem vector_left_scalar_broadcast_witness :
    ∃ r, callBinary operatorDivVS
          (IntScalar.vector IntType.i32 [7, -9] : Vector (IntScalar IntType.i32) 2)
          (IntScalar.ofInt IntType.i32 2)
        = some (IntScalar.vector IntType.i32 [7, -9], IntScalar.ofInt IntType.i32 2, r) ∧
      callCompound operatorDivAssignVS
          (IntScalar.vector IntType.i32 [7, -9] : Vector (IntScalar IntType.i32) 2)
          (IntScalar.ofInt IntType.i32 2)
        = some (r, IntScalar.ofInt IntType.i32 2, r) ∧
      r = ⟨fun i =>
          (IntScalar.vector IntType.i32 [7, -9] : Vector (IntScalar IntType.i32) 2).data i
            / IntScalar.ofInt IntType.i32 2⟩ :=
  (vector_left_scalar_broadcast _ _).2.2.2 ⟨by decide, by decide⟩

/-- C15: for every integer scalar type (arithmetic modulo `2^w`), every length
and all vectors `a`, `b`, the vector `(a + b) - b` is defined and equals `a`
exactly: it is `a`, and `operator==` on it and `a` is true. -/
theorem add_then_sub_is_identity (t : IntType) {Length : Nat}
    (a b : Vector (IntScalar t) Length) :
    (operatorAddVV a b).bind (fun c => operatorSubVV c b) = some a ∧
    ((operatorAddVV a b).bind (fun c => operatorSubVV c b)).map (fun r => r.operatorEq a)
      = some true := by
  have h : (operatorAddVV a b).bind (fun c => operatorSubVV c b) = some a := by
    rw [operatorAddVV_eq]
    show operatorSubVV _ b = some a
    rw [operatorSubVV_eq]
    congr 1
    apply Vector.ext_components
    intro i
    exact IntScalar.add_then_sub _ _
  refine ⟨h, ?_⟩
  rw [h]
  simp [Vector.operatorEq]

/-- C16 (counterexample): for `uint8_t`, `a = (200)` and `s = 2` the product
`200 * 2 = 400` is stored as `144`, and `144 / 2 = 72`, so `(a * s) / s` is
`(72)` and not `a`. -/
theorem mul_then_div_overflow_u8 :
    ((operatorMulVS (IntScalar.vector IntType.u8 [200] : Vector (IntScalar IntType.u8) 1)
        (IntScalar.ofInt IntType.u8 2)).bind
      (fun c => operatorDivVS c (IntScalar.ofInt IntType.u8 2))).map
        (fun r => r.toList.map IntScalar.val) = some [72] ∧
    ((operatorMulVS (IntScalar.vector IntType.u8 [200] : Vector (IntScalar IntType.u8) 1)
        (IntScalar.ofInt IntType.u8 2)).bind
      (fun c => operatorDivVS c (IntScalar.ofInt IntType.u8 2))).map
        (fun r => r.operatorEq (IntScalar.vector IntType.u8 [200])) = some false ∧
    IntScalar.ofInt IntType.u8 2 ≠ 0 := by
  decide

/-- C16 (amended): for every integer scalar type, every vector `a` and every
non-zero scalar `s` such that each product `a[i] * s` is representable in the
scalar type, `(a * s) / s` is defined and equals `a` exactly. -/
theorem mul_then_div_is_identity_of_no_overflow (t : IntType) {Length : Nat}
    (a : Vector (IntScalar t) Length) (s : IntScalar t) (hs : s ≠ 0)
    (hfit : ∀ i, t.inRange ((a.data i).val * s.val)) :
    (operatorMulVS a s).bind (fun c => operatorDivVS c s) = some a ∧
    ((operatorMulVS a s).bind (fun c => operatorDivVS c s)).map (fun r => r.operatorEq a)
      = some true := by
  have h : (operatorMulVS a s).bind (fun c => operatorDivVS c s) = some a := by
    show (operatorMulAssignVS a s).bind (fun c => operatorDivAssignVS c s) = some a
    rw [operatorMulAssignVS_eq]
    show operatorDivAssignVS _ s = some a
    rw [operatorDivAssignVS_eq _ hs
      (fun i => IntScalar.mul_quotient_no_overflow _ _ hs (hfit i))]
    congr 1
    apply Vector.ext_components
    intro i
    exact IntScalar.mul_then_div _ _ hs (hfit i)
  refine ⟨h, ?_⟩
  rw [h]
  simp [Vector.operatorEq]

/-- Witness of C16 (amended): an `int8_t` vector times 2 and divided by 2. -/
theorem mul_then_div_is_identity_of_no_overflow_witness :
    (operatorMulVS (IntScalar.vector IntType.i8 [60, -64] : Vector (IntScalar IntType.i8) 2)
        (IntScalar.ofInt IntType.i8 2)).bind
      (fun c => operatorDivVS c (IntScalar.ofInt IntType.i8 2))
      = some (IntScalar.vector IntType.i8 [60, -64]) :=
  (mul_then_div_is_identity_of_no_overflow IntType.i8 _ _ (by decide) (by decide)).1

/-- C17 (the code at a `Matrix<int,3,2>` receiver and at a `Matrix<int,2,3>`
receiver): `Inverse()` of a matrix with 3 columns and 2 rows default-constructs
a `Matrix<int,2,3>`, whose constructor never writes offset 5, so the result
keeps there what the storage held and two calls can return different matrices;
`Inverse()` of a matrix with 2 columns and 3 rows default-constructs a
`Matrix<int,3,2>`, whose constructor writes outside the storage, so the call is
undefined. -/
theorem Inverse_nonsquare_depends_on_storage :
    (∀ (m : Matrix Int 3 2) (init : Matrix Int 2 3),
      (m.Inverse init).map Matrix.toList = some [1, 0, 0, 1, 0, init.mData ⟨5, by decide⟩]) ∧
    ((⟨![1, 2, 3, 4, 5, 6]⟩ : Matrix Int 3 2).Inverse ⟨fun _ => 0⟩).map Matrix.toList
      = some [1, 0, 0, 1, 0, 0] ∧
    ((⟨![1, 2, 3, 4, 5, 6]⟩ : Matrix Int 3 2).Inverse ⟨fun _ => 7⟩).map Matrix.toList
      = some [1, 0, 0, 1, 0, 7] ∧
    (∀ (m : Matrix Int 2 3) (init : Matrix Int 3 2), m.Inverse init = none) :=
  ⟨fun _ _ => rfl, rfl, rfl, fun _ _ => rfl⟩

/-- C18 (counterexample): with an 8-bit `HashType` the seed 5381 is stored as
`5381 mod 256 = 5`, so the hash of the empty buffer is 5, not the value 5381 of
the fold started from 5381. -/
theorem Djb2_Hash_empty_u8 :
    Djb2.Hash 8 [] = 5 ∧
    Djb2.Hash 8 [] ≠ ([] : List (Fin 256)).foldl (fun h d => (h * 33 + d.val) % 2 ^ 8) 5381 := by
  decide

/-- C18 (amended): for every unsigned hash width `w` and every byte sequence `B`,
`Djb2::Hash(B)` is the left fold over `B` of `h -> (h*33 + byte) mod 2^w` started
from `5381 mod 2^w`, the value that `HashType hash = 5381` stores; the fold may
start from 5381 itself whenever `B` is not empty or 5381 fits the width; the
hash of the empty buffer is `5381 mod 2^w`, which is 5381 when 5381 fits; the
value is a function of the bytes alone, and for `"abcde"` it is 252819604 at 32
bits and 210706217108 at 64 bits. -/
theorem Djb2_Hash_eq_fold (w : Nat) (B : List (Fin 256)) :
    Djb2.Hash w B = B.foldl (fun h (d : Fin 256) => (h * 33 + d.val) % 2 ^ w) (5381 % 2 ^ w) ∧
    (B ≠ [] ∨ 5381 < 2 ^ w →
      Djb2.Hash w B = B.foldl (fun h (d : Fin 256) => (h * 33 + d.val) % 2 ^ w) 5381) ∧
    Djb2.Hash w [] = 5381 % 2 ^ w ∧
    (5381 < 2 ^ w → Djb2.Hash w [] = 5381) ∧
    Djb2.Hash 32 [97, 98, 99, 100, 101] = 252819604 ∧
    Djb2.Hash 64 [97, 98, 99, 100, 101] = 210706217108 := by
  refine ⟨?_, ?_, rfl, ?_, by decide, by decide⟩
  · rw [Djb2.Hash, Djb2.HashFrom_eq_foldl]
  · rintro (h | h)
    · exact Djb2.Hash_eq_foldl_of_ne_nil w B h
    · rw [Djb2.Hash, Djb2.HashFrom_eq_foldl, Nat.mod_eq_of_lt h]
  · intro h
    show 5381 % 2 ^ w = 5381
    exact Nat.mod_eq_of_lt h

/-- Witness of C18 (amended): on the bytes of `"abcde"` the fold from 5381 gives
the hash at 8 bits, where the seed does not fit, and at 32 bits, where it does. -/
theorem Djb2_Hash_eq_fold_witness :
    Djb2.Hash 8 [97, 98, 99, 100, 101]
      = ([97, 98, 99, 100, 101] : List (Fin 256)).foldl
          (fun h (d : Fin 256) => (h * 33 + d.val) % 2 ^ 8) 5381 ∧
    Djb2.Hash 32 [97, 98, 99, 100, 101]
      = ([97, 98, 99, 100, 101] : List (Fin 256)).foldl
          (fun h (d : Fin 256) => (h * 33 + d.val) % 2 ^ 32) 5381 :=
  ⟨(Djb2_Hash_eq_fold 8 [97, 98, 99, 100, 101]).2.1 (Or.inl (by decide)),
    (Djb2_Hash_eq_fold 32 [97, 98, 99, 100, 101]).2.1 (Or.inr (by decide))⟩

/-- C19: for `m = Matrix<int32_t,2,2>({1,2,3,4})`, whatever the storage held,
`m.getRow(0) == (1,2)`, `m.getRow(1) == (3,4)`, `m.getColumn(0) == (1,3)` and
`m.transpose() == Matrix<int32_t,2,2>({1,3,2,4})`. -/
theorem scenario_2x2 (init init2 init3 : Matrix Int 2 2) :
    ∃ m, Matrix.ctorElements [1, 2, 3, 4] init = some m ∧
      (m.getRow 0).map (fun r => r.operatorEq (Vector.ctorElements [1, 2])) = some true ∧
      (m.getRow 1).map (fun r => r.operatorEq (Vector.ctorElements [3, 4])) = some true ∧
      (m.getColumn 0).map (fun c => c.operatorEq (Vector.ctorElements [1, 3])) = some true ∧
      ∃ t e, m.transpose init2 = some t ∧
        Matrix.ctorElements [1, 3, 2, 4] init3 = some e ∧
        t.operatorEq IntType.i32 e = some true := by
  have hm : Matrix.ctorElements [1, 2, 3, 4] init = some ⟨![1, 2, 3, 4]⟩ := by
    show some _ = some _
    congr 1
    apply Matrix.ext_data
    intro k
    fin_cases k <;> rfl
  have he : Matrix.ctorElements [1, 3, 2, 4] init3 = some ⟨![1, 3, 2, 4]⟩ := by
    show some _ = some _
    congr 1
    apply Matrix.ext_data
    intro k
    fin_cases k <;> rfl
  have ht : (⟨![1, 2, 3, 4]⟩ : Matrix Int 2 2).transpose init2 = some ⟨![1, 3, 2, 4]⟩ := by
    show some _ = some _
    congr 1
    apply Matrix.ext_data
    intro k
    fin_cases k <;> rfl
  exact ⟨_, hm, by decide, by decide, by decide, _, _, ht, he, by decide⟩

/-- C20: on a square shape `transpose()` is defined and swaps rows and columns
exactly: for all `i, j < n` the element at row `i`, column `j` of the result is
the element at row `j`, column `i` of the source, whatever the temporary held
after its default construction. -/
theorem transpose_square_swaps {α : Type} [Zero α] [One α] {n : Nat} (m : Matrix α n n)
    (init : Matrix α n n) :
    ∃ t, m.transpose init = some t ∧
      ∀ i j (hi : i < n) (hj : j < n),
        t.load (i * n + j) = some (m.mData ⟨j * n + i, offset_lt hj hi⟩) := by
  obtain ⟨t, ht, h⟩ := Matrix.transpose_square m init
  refine ⟨t, ht, fun i j hi hj => ?_⟩
  rw [h i j hi hj, Matrix.load_of_lt]

/-- Witness of C20: the element at row 0, column 1 of the transpose of the 2x2
matrix `{1,2,3,4}` is its element at row 1, column 0. -/
theorem transpose_square_swaps_witness :
    ∃ t, (⟨![1, 2, 3, 4]⟩ : Matrix Int 2 2).transpose ⟨fun _ => 7⟩ = some t ∧
      t.load (0 * 2 + 1) = some ((⟨![1, 2, 3, 4]⟩ : Matrix Int 2 2).mData ⟨1 * 2 + 0, by decide⟩) := by
  obtain ⟨t, ht, h⟩ := transpose_square_swaps (⟨![1, 2, 3, 4]⟩ : Matrix Int 2 2) ⟨fun _ => 7⟩
  exact ⟨t, ht, h 0 1 (by decide) (by decide)⟩

/-- C21 (the code at Width 3, Height 2, at Width 2, Height 3 and at Width 2,
Height 1): the constructors of a `Matrix<int,3,2>` store at the offsets
`0,1,3,4,6,7` of a six-element storage, so offsets 6 and 7 are outside it,
offsets 2 and 5 are never written, and both constructors are undefined; the
constructors of a `Matrix<int,2,3>` never write offset 5; `transpose()` of a
`Matrix<int,2,1>` runs `i` over `0,1`, so it reads row 1 of a one-row source
and writes column 1 of a one-column result, and is undefined. -/
theorem index_free_operations_leave_storage :
    Matrix.ctorOffsets 3 2 = [0, 1, 3, 4, 6, 7] ∧
    (6 ∈ Matrix.ctorOffsets 3 2 ∧ ¬ 6 < 3 * 2) ∧
    (2 < 3 * 2 ∧ 2 ∉ Matrix.ctorOffsets 3 2) ∧
    (∀ init : Matrix Int 3 2, Matrix.ctor init = none ∧ Matrix.ctorScalar 5 init = none) ∧
    (5 < 2 * 3 ∧ 5 ∉ Matrix.ctorOffsets 2 3) ∧
    Matrix.transposeIndices 2 = [0, 1] ∧
    (1 ∈ Matrix.transposeIndices 2 ∧ ¬ 1 < 1) ∧
    (⟨![1, 2]⟩ : Matrix Int 2 1).getRow 1 = none ∧
    (∀ tmp : Matrix Int 1 2, tmp.setColumn 1 ⟨![1, 2]⟩ = none) ∧
    (∀ init : Matrix Int 1 2, (⟨![1, 2]⟩ : Matrix Int 2 1).transpose init = none) :=
  ⟨by decide, by decide, by decide, fun _ => ⟨rfl, rfl⟩, by decide, by decide, by decide,
    rfl, fun _ => rfl, fun _ => rfl⟩

/-- C22: row and column writes change nothing else.  With a valid row index `i`,
`setRow(i, r)` is defined and leaves the element at row `p`, column `q`
unchanged for every `p ≠ i`; with a valid column index `i`, `setColumn(i, c)` is
defined and leaves the element at row `p`, column `q` unchanged for every
`q ≠ i` (`p < Height`, `q < Width`). -/
theorem setRow_setColumn_frame {α : Type} {Width Height : Nat} (m : Matrix α Width Height)
    (i : Nat) :
    (∀ r : Vector α Width, i < Height →
      ∃ n, m.setRow i r = some n ∧
        ∀ p q, p < Height → q < Width → p ≠ i →
          n.load (p * Width + q) = m.load (p * Width + q)) ∧
    (∀ c : Vector α Height, i < Width →
      ∃ n, m.setColumn i c = some n ∧
        ∀ p q, p < Height → q < Width → q ≠ i →
          n.load (p * Width + q) = m.load (p * Width + q)) := by
  constructor
  · intro r hi
    obtain ⟨n, hn, _, hframe⟩ := Matrix.setRow_spec m i r hi
    refine ⟨n, hn, fun p q _ hq hpi => hframe _ ?_⟩
    rcases Nat.lt_or_gt_of_ne hpi with h | h
    · left
      calc p * Width + q < p * Width + Width := Nat.add_lt_add_left hq _
        _ = (p + 1) * Width := by ring
        _ ≤ i * Width := Nat.mul_le_mul_right _ h
    · right
      calc i * Width + Width = (i + 1) * Width := by ring
        _ ≤ p * Width := Nat.mul_le_mul_right _ h
        _ ≤ p * Width + q := Nat.le_add_right _ _
  · intro c hi
    obtain ⟨n, hn, _, hframe⟩ := Matrix.setColumn_spec m i c hi
    refine ⟨n, hn, fun p q _ hq hqi => hframe _ ?_⟩
    intro p2 _ e
    exact hqi (offset_inj hq hi e).2

/-- Witness of C22 on a matrix with 3 columns and 2 rows: `setRow(1, r)` keeps
the element at row 0, column 2, and `setColumn(1, c)` keeps the element at row 1,
column 2. -/
theorem setRow_setColumn_frame_witness :
    (∃ n, (⟨![1, 2, 3, 4, 5, 6]⟩ : Matrix Int 3 2).setRow 1 ⟨![7, 8, 9]⟩ = some n ∧
      n.load (0 * 3 + 2) = (⟨![1, 2, 3, 4, 5, 6]⟩ : Matrix Int 3 2).load (0 * 3 + 2)) ∧
    (∃ n, (⟨![1, 2, 3, 4, 5, 6]⟩ : Matrix Int 3 2).setColumn 1 ⟨![7, 8]⟩ = some n ∧
      n.load (1 * 3 + 2) = (⟨![1, 2, 3, 4, 5, 6]⟩ : Matrix Int 3 2).load (1 * 3 + 2)) := by
  obtain ⟨hrow, hcol⟩ := setRow_setColumn_frame (⟨![1, 2, 3, 4, 5, 6]⟩ : Matrix Int 3 2) 1
  obtain ⟨n, hn, h⟩ := hrow ⟨![7, 8, 9]⟩ (by decide)
  obtain ⟨n2, hn2, h2⟩ := hcol ⟨![7, 8]⟩ (by decide)
  exact ⟨⟨n, hn, h 0 2 (by decide) (by decide) (by decide)⟩,
    ⟨n2, hn2, h2 1 2 (by decide) (by decide) (by decide)⟩⟩

end Claims

end Solaire
